import Mathlib

/-!
# Intrusive reference counting: `SafeRefCount_t` and `IntrusivePtr_t`

A shallow embedding of `main.cpp`.

* A raw pointer `T *` is an `Option Nat`: `none` is the null pointer, `some a`
  is the address `a` of an object.  Conversions between the static views `T`
  and `U` of one object (`static_cast`, `const_cast`, the implicit
  derived-to-base conversion) keep the address.
* The heap maps every address to the `SafeRefCount_t` sub-object stored there.
* `std::atomic<int> safeRefCount` is an `Int` kept in the range of a 32-bit
  two's complement `int`: `fetch_add` and `fetch_sub` on an atomic integer wrap
  around, which is `wrapInt`.
* `delete this` is recorded in the field `deleted`, which counts how many times
  it has run on the object; the object is alive while `deleted = 0`.  A call on a
  deleted object is undefined behaviour in C++; here the counter of a deleted
  object is kept, so that every function is total, and the theorems keep to calls
  on live objects: the sequences of calls are such that a deletion can only be
  their last call, and the programs of handle operations run through
  `Sys.stepLive`, which refuses an operation that calls a deleted object.
* The diagnostic `std::cout << safeRefCount` lines are not part of the state.
* Member functions that modify `*this` return the new value of `*this`; functions
  that reach a counter take the heap and return the new heap.
* `Traced` repeats the counting operations with a log of the `AddReference` /
  `RemoveReference` calls they make, for the statements about which calls are made
  and in which order.
* The values stored in the objects and the operator `>` of the pointed-to type are
  parameters (`val`, `gt`) of the ordering operator.
* Two threads in `RemoveReference` are interleaved at the granularity of the atomic
  `fetch_sub`; the memory orderings and the fence are not part of the state.
* The free function template `swap` has no definition here: its parameters are
  `const` references and its body calls the private, non-const member `swap` on
  them, so no instantiation of it is well-formed.
-/

namespace SmartPointer

/-! ## The counter type -/

/-- Largest value of the C++ type `int` (32 bits). -/
def INT_MAX : Int := 2147483647

/-- Smallest value of the C++ type `int` (32 bits). -/
def INT_MIN : Int := -2147483648

/-- Reduction of a mathematical integer to the two's complement range of `int`:
the value stored by `fetch_add` / `fetch_sub` on `std::atomic<int>`.  For atomic
signed integers the C++ standard defines the arithmetic as two's complement with no
undefined results, so the stored value wraps around. -/
def wrapInt (x : Int) : Int := (x + 2147483648) % 4294967296 - 2147483648

/-! ## `SafeRefCount_t` -/

/-- State of one `SafeRefCount_t<T>` object: the atomic counter and the number of
times `delete this` has been executed on it. -/
structure SafeRefCount_t where
  safeRefCount : Int
  deleted : Nat
deriving DecidableEq, Repr

namespace SafeRefCount_t

/-- The constructor `SafeRefCount_t() : safeRefCount(0)`. -/
def new : SafeRefCount_t := { safeRefCount := 0, deleted := 0 }

/-- The member `RefCount`: `return safeRefCount;`. -/
def RefCount (self : SafeRefCount_t) : Int := self.safeRefCount

/-- The member `AddReference`: `safeRefCount.fetch_add(1, std::memory_order_relaxed)`. -/
def AddReference (self : SafeRefCount_t) : SafeRefCount_t :=
  { self with safeRefCount := wrapInt (self.safeRefCount + 1) }

/-- The member `RemoveReference`: `fetch_sub(1)` returns the value held before the
subtraction; when that value is `1` the object runs `delete this`. -/
def RemoveReference (self : SafeRefCount_t) : SafeRefCount_t :=
  let old := self.safeRefCount
  let self1 := { self with safeRefCount := wrapInt (old - 1) }
  if old = 1 then { self1 with deleted := self1.deleted + 1 } else self1

end SafeRefCount_t

/-! ## Raw pointers, the heap, and the two free helper functions -/

/-- A raw pointer `T *`. -/
abbrev Ptr := Option Nat

/-- The heap: the counted object stored at every address. -/
abbrev Heap := Nat → SafeRefCount_t

/-- The expression `new SafeRefCount_t<A>()` evaluated to the address `a`. -/
def Heap.alloc (h : Heap) (a : Nat) : Heap := Function.update h a SafeRefCount_t.new

/-- The helper `IntrusivePtr_t_add_ref`: `if (p) p->AddReference();`. -/
def IntrusivePtr_t_add_ref (p : Ptr) (h : Heap) : Heap :=
  match p with
  | some a => Function.update h a (h a).AddReference
  | none => h

/-- The helper `IntrusivePtr_t_release`: `if (p) p->RemoveReference();`. -/
def IntrusivePtr_t_release (p : Ptr) (h : Heap) : Heap :=
  match p with
  | some a => Function.update h a (h a).RemoveReference
  | none => h

/-! ## `IntrusivePtr_t` -/

/-- The handle: its only data member is the raw pointer `px`. -/
structure IntrusivePtr_t where
  px : Ptr
deriving DecidableEq, Repr

namespace IntrusivePtr_t

/-- The default constructor `IntrusivePtr_t() : px(0)`. -/
def empty : IntrusivePtr_t := { px := none }

/-- The constructor `IntrusivePtr_t(T *p, bool add_ref = true)`:
`px(p)`, then `if (px != 0 && add_ref) IntrusivePtr_t_add_ref(px);`.  A C++ call
that omits `add_ref` is the call with `add_ref` true. -/
def ofPtr (p : Ptr) (add_ref : Bool) (h : Heap) : IntrusivePtr_t × Heap :=
  let self : IntrusivePtr_t := { px := p }
  if self.px ≠ none ∧ add_ref = true then (self, IntrusivePtr_t_add_ref self.px h)
  else (self, h)

/-- The copy constructor `IntrusivePtr_t(IntrusivePtr_t const & rhs)`:
`px(rhs.px)`, then `if (px != 0) IntrusivePtr_t_add_ref(px);`. -/
def copy (rhs : IntrusivePtr_t) (h : Heap) : IntrusivePtr_t × Heap :=
  let self : IntrusivePtr_t := { px := rhs.px }
  if self.px ≠ none then (self, IntrusivePtr_t_add_ref self.px h) else (self, h)

/-- The member `get`: `return px;`. -/
def get (self : IntrusivePtr_t) : Ptr := self.px

/-- The member `is_set`: `return (0 != px);`. -/
def is_set (self : IntrusivePtr_t) : Bool := decide (none ≠ self.px)

/-- The converting copy constructor `IntrusivePtr_t(IntrusivePtr_t<U> const & rhs)`:
`px(rhs.get())`, then `if (px != 0) IntrusivePtr_t_add_ref(px);`. -/
def copyConv (rhs : IntrusivePtr_t) (h : Heap) : IntrusivePtr_t × Heap :=
  let self : IntrusivePtr_t := { px := rhs.get }
  if self.px ≠ none then (self, IntrusivePtr_t_add_ref self.px h) else (self, h)

/-- The destructor: `if (px != 0) IntrusivePtr_t_release(px);`. -/
def destroy (self : IntrusivePtr_t) (h : Heap) : Heap :=
  if self.px ≠ none then IntrusivePtr_t_release self.px h else h

/-- The member `swap`, called as `self.swap(rhs)`: returns the new `self` and the
new `rhs`. -/
def swap (self rhs : IntrusivePtr_t) : IntrusivePtr_t × IntrusivePtr_t :=
  let tmp := self.px
  let self1 : IntrusivePtr_t := { self with px := rhs.px }
  let rhs1 : IntrusivePtr_t := { rhs with px := tmp }
  (self1, rhs1)

/-- The copy assignment `operator=(IntrusivePtr_t const & rhs)`, the statement
`this_type(rhs).swap(*this);`: the temporary is copy-constructed from `rhs`,
swapped with `*this`, and destroyed at the end of the statement.  Returns the new
`*this`. -/
def assign (self rhs : IntrusivePtr_t) (h : Heap) : IntrusivePtr_t × Heap :=
  let (tmp, h1) := copy rhs h
  let (tmp1, self1) := tmp.swap self
  (self1, tmp1.destroy h1)

/-- The converting assignment `operator=(IntrusivePtr_t<U> const & rhs)`:
as `assign`, the temporary being built by the converting copy constructor. -/
def assignConv (self rhs : IntrusivePtr_t) (h : Heap) : IntrusivePtr_t × Heap :=
  let (tmp, h1) := copyConv rhs h
  let (tmp1, self1) := tmp.swap self
  (self1, tmp1.destroy h1)

/-- The assignment `operator=(T * rhs)`: `this_type(rhs).swap(*this);`, the
temporary being built by `IntrusivePtr_t(rhs)` with `add_ref` defaulted to true. -/
def assignPtr (self : IntrusivePtr_t) (rhs : Ptr) (h : Heap) : IntrusivePtr_t × Heap :=
  let (tmp, h1) := ofPtr rhs true h
  let (tmp1, self1) := tmp.swap self
  (self1, tmp1.destroy h1)

/-- The member `reset()`: `this_type().swap(*this);`. -/
def reset (self : IntrusivePtr_t) (h : Heap) : IntrusivePtr_t × Heap :=
  let tmp := IntrusivePtr_t.empty
  let (tmp1, self1) := tmp.swap self
  (self1, tmp1.destroy h)

/-- The member `reset(T *rhs)`: `this_type(rhs).swap(*this);`. -/
def resetPtr (self : IntrusivePtr_t) (rhs : Ptr) (h : Heap) : IntrusivePtr_t × Heap :=
  let (tmp, h1) := ofPtr rhs true h
  let (tmp1, self1) := tmp.swap self
  (self1, tmp1.destroy h1)

end IntrusivePtr_t

/-- The function template `static_pointer_cast`: `return static_cast<T *>(p.get());`,
the returned handle being built from the raw pointer by `IntrusivePtr_t(T *p)` with
`add_ref` defaulted to true. -/
def static_pointer_cast (p : IntrusivePtr_t) (h : Heap) : IntrusivePtr_t × Heap :=
  IntrusivePtr_t.ofPtr p.get true h

/-- The function template `const_pointer_cast`: `return const_cast<T *>(p.get());`. -/
def const_pointer_cast (p : IntrusivePtr_t) (h : Heap) : IntrusivePtr_t × Heap :=
  IntrusivePtr_t.ofPtr p.get true h

/-- The function `main`, with `new SafeRefCount_t<A>()` returning the address `a`:
`aa` is built from the raw pointer, `bb` is copied from `aa`, and at `return 0;`
the destructors run in reverse order of construction, `bb` first. -/
def main (h : Heap) (a : Nat) : Heap :=
  let h0 := h.alloc a
  let (aa, h1) := IntrusivePtr_t.ofPtr (some a) true h0
  let (bb, h2) := IntrusivePtr_t.copy aa h1
  let h3 := bb.destroy h2
  aa.destroy h3

/-! ## Sequences of calls on one object -/

/-- A call of one of the two counting members of `SafeRefCount_t`. -/
inductive Call where
  | AddReference
  | RemoveReference
deriving DecidableEq, Repr

/-- Execute one call on the object. -/
def SafeRefCount_t.call (self : SafeRefCount_t) : Call → SafeRefCount_t
  | Call.AddReference => self.AddReference
  | Call.RemoveReference => self.RemoveReference

/-- Execute a sequence of calls on the object, first call first.  The function is
total: it goes on counting after a call has run `delete this`, where in C++ every
further call is a use of a freed object; statements about it keep the object alive
up to the last call of the sequence. -/
def SafeRefCount_t.calls (self : SafeRefCount_t) (l : List Call) : SafeRefCount_t :=
  l.foldl SafeRefCount_t.call self

/-- Number of `AddReference` calls of the sequence minus the number of its
`RemoveReference` calls: the claims taken and not yet released. -/
def unmatched (l : List Call) : Int :=
  (l.count Call.AddReference : Int) - (l.count Call.RemoveReference : Int)

/-- A sequence of calls is properly paired when every `RemoveReference` is matched
by a prior `AddReference` (no prefix holds more removes than adds) and every
`AddReference` is matched in the end. -/
def properlyPaired (l : List Call) : Prop :=
  (∀ k, k ≤ l.length → 0 ≤ unmatched (l.take k)) ∧ unmatched l = 0

instance (l : List Call) : Decidable (properlyPaired l) := by
  unfold properlyPaired
  infer_instance

/-! ## Several handles built from one raw pointer -/

/-- Build `k` handles, each by `IntrusivePtr_t(p)` from the same raw pointer `p`
(`add_ref` defaulted to true); the handle built last is the head of the list. -/
def constructN (p : Ptr) : Nat → Heap → List IntrusivePtr_t × Heap
  | 0, h => ([], h)
  | k + 1, h =>
    let (hs, h1) := constructN p k h
    let (x, h2) := IntrusivePtr_t.ofPtr p true h1
    (x :: hs, h2)

/-- Run the destructor of every handle of the list, head first. -/
def destroyAll (hs : List IntrusivePtr_t) (h : Heap) : Heap :=
  hs.foldl (fun h1 x => x.destroy h1) h

/-! ## A program as a sequence of handle operations -/

/-- State of a program that only works through handles: the heap, and the handles
constructed so far.  Handle number `i` is entry `i` of the list: `some x` while the
handle is alive with value `x`, `none` once its destructor has run. -/
structure Sys where
  heap : Heap
  handles : List (Option IntrusivePtr_t)

/-- The handle operations that always claim, the handles being named by number. -/
inductive Op where
  /-- A new handle built by `IntrusivePtr_t(p)`, `add_ref` defaulted to true. -/
  | construct (p : Ptr)
  /-- A new handle copy-constructed from handle `j`. -/
  | copy (j : Nat)
  /-- A new handle built from handle `j` by the converting copy constructor. -/
  | copyConv (j : Nat)
  /-- The copy assignment: handle `i` = handle `j`. -/
  | assign (i j : Nat)
  /-- The converting assignment: handle `i` = handle `j`. -/
  | assignConv (i j : Nat)
  /-- The raw pointer assignment: handle `i` = `p`. -/
  | assignPtr (i : Nat) (p : Ptr)
  /-- The call `reset()` on handle `i`. -/
  | reset (i : Nat)
  /-- The call `reset(p)` on handle `i`. -/
  | resetPtr (i : Nat) (p : Ptr)
  /-- The call `swap` on handle `i` with handle `j` as argument. -/
  | swap (i j : Nat)
  /-- A new handle returned by `static_pointer_cast` of handle `j`. -/
  | static_pointer_cast (j : Nat)
  /-- A new handle returned by `const_pointer_cast` of handle `j`. -/
  | const_pointer_cast (j : Nat)
  /-- The destructor of handle `i`. -/
  | destroy (i : Nat)
deriving DecidableEq, Repr

namespace Sys

/-- The start of the program: every address holds a fresh object and no handle
exists. -/
def init : Sys := { heap := fun _ => SafeRefCount_t.new, handles := [] }

/-- The value of handle `i`, when that handle is alive. -/
def handle (s : Sys) (i : Nat) : Option IntrusivePtr_t :=
  match s.handles[i]? with
  | some (some x) => some x
  | _ => none

/-- Whether an entry of the handle list is a live handle whose `get()` is the
address `a`. -/
def pointsTo (a : Nat) (x : Option IntrusivePtr_t) : Bool :=
  match x with
  | some h => decide (h.get = some a)
  | none => false

/-- Number of live handles whose target is the object at address `a`. -/
def claims (s : Sys) (a : Nat) : Nat :=
  s.handles.countP (pointsTo a)

/-- The state after a constructor has produced the new handle `r.1` and the heap
`r.2`. -/
def push (s : Sys) (r : IntrusivePtr_t × Heap) : Sys :=
  { heap := r.2, handles := s.handles ++ [some r.1] }

/-- The state after a member call on handle `i` has produced the new value `r.1` of
that handle and the heap `r.2`. -/
def put (s : Sys) (i : Nat) (r : IntrusivePtr_t × Heap) : Sys :=
  { heap := r.2, handles := s.handles.set i (some r.1) }

/-- The effect of one operation on the handles and the counters; `none` when it
names a handle that is not alive.  Whether the objects it reaches are still alive
is checked by `Sys.stepLive`. -/
def step (s : Sys) : Op → Option Sys
  | Op.construct p => some (s.push (IntrusivePtr_t.ofPtr p true s.heap))
  | Op.copy j =>
    match s.handle j with
    | some rhs => some (s.push (IntrusivePtr_t.copy rhs s.heap))
    | none => none
  | Op.copyConv j =>
    match s.handle j with
    | some rhs => some (s.push (IntrusivePtr_t.copyConv rhs s.heap))
    | none => none
  | Op.assign i j =>
    match s.handle i, s.handle j with
    | some self, some rhs => some (s.put i (self.assign rhs s.heap))
    | _, _ => none
  | Op.assignConv i j =>
    match s.handle i, s.handle j with
    | some self, some rhs => some (s.put i (self.assignConv rhs s.heap))
    | _, _ => none
  | Op.assignPtr i p =>
    match s.handle i with
    | some self => some (s.put i (self.assignPtr p s.heap))
    | none => none
  | Op.reset i =>
    match s.handle i with
    | some self => some (s.put i (self.reset s.heap))
    | none => none
  | Op.resetPtr i p =>
    match s.handle i with
    | some self => some (s.put i (self.resetPtr p s.heap))
    | none => none
  | Op.swap i j =>
    match s.handle i, s.handle j with
    | some self, some rhs =>
      some { heap := s.heap,
             handles := (s.handles.set i (some (self.swap rhs).1)).set j
               (some (self.swap rhs).2) }
    | _, _ => none
  | Op.static_pointer_cast j =>
    match s.handle j with
    | some p => some (s.push (SmartPointer.static_pointer_cast p s.heap))
    | none => none
  | Op.const_pointer_cast j =>
    match s.handle j with
    | some p => some (s.push (SmartPointer.const_pointer_cast p s.heap))
    | none => none
  | Op.destroy i =>
    match s.handle i with
    | some self => some { heap := self.destroy s.heap, handles := s.handles.set i none }
    | none => none

end Sys

/-- The counting invariant of a program state: the counter of every object is the
number of live handles whose target it is, reduced to the range of `int`. -/
def Sys.Inv (s : Sys) : Prop :=
  ∀ a, (s.heap a).safeRefCount = wrapInt (s.claims a)

/-! ## The comparison operators on raw pointers -/

/-- The operator `==` on two handles: `return a.get() == b.get();`. -/
def operator_eq (a b : IntrusivePtr_t) : Bool := a.get == b.get

/-- The operator `!=` on two handles: `return a.get() != b.get();`. -/
def operator_ne (a b : IntrusivePtr_t) : Bool := a.get != b.get

/-- The operator `==` on a handle and a raw pointer: `return a.get() == b;`. -/
def operator_eq_ptr (a : IntrusivePtr_t) (b : Ptr) : Bool := a.get == b

/-- The operator `!=` on a handle and a raw pointer: `return a.get() != b;`. -/
def operator_ne_ptr (a : IntrusivePtr_t) (b : Ptr) : Bool := a.get != b

/-- The operator `==` on a raw pointer and a handle: `return a == b.get();`. -/
def ptr_operator_eq (a : Ptr) (b : IntrusivePtr_t) : Bool := a == b.get

/-- The operator `!=` on a raw pointer and a handle: `return a != b.get();`. -/
def ptr_operator_ne (a : Ptr) (b : IntrusivePtr_t) : Bool := a != b.get

/-! ## Observers and the ordering operator -/

/-- The function template `get_pointer`: `return p.get();`. -/
def get_pointer (p : IntrusivePtr_t) : Ptr := p.get

/-- The member `operator*`: `return *px;`, the value stored in the pointed-to
object, `val` giving the value stored at every address.  Dereferencing a null `px`
is undefined behaviour in C++: `none`. -/
def IntrusivePtr_t.deref {V : Type} (val : Nat → V) (self : IntrusivePtr_t) : Option V :=
  match self.px with
  | some a => some (val a)
  | none => none

/-- The operator `>` on two handles of the same type:
`if (a.is_set() && b.is_set()) { return *a > *b; } return false;`, where `gt` is
the operator `>` of the pointed-to type `T`. -/
def operator_gt {V : Type} (gt : V → V → Bool) (val : Nat → V)
    (a b : IntrusivePtr_t) : Bool :=
  if a.is_set = true ∧ b.is_set = true then
    match a.deref val, b.deref val with
    | some x, some y => gt x y
    | _, _ => false
  else false

/-! ## The same operations with a log of the counting calls -/

/-- A counting call made on the object at address `addr`. -/
structure CallOn where
  call : Call
  addr : Nat
deriving DecidableEq, Repr

/-- Execute one logged call on the heap. -/
def CallOn.apply (c : CallOn) (h : Heap) : Heap :=
  Function.update h c.addr ((h c.addr).call c.call)

/-- Execute a list of logged calls on the heap, first call first. -/
def applyCalls (l : List CallOn) (h : Heap) : Heap :=
  l.foldl (fun h1 c => c.apply h1) h

/-- The heap together with the log of the `AddReference` / `RemoveReference` calls
made so far, oldest first. -/
structure Traced where
  heap : Heap
  log : List CallOn

namespace Traced

/-- The helper `IntrusivePtr_t_add_ref`, logging the call `p->AddReference()`. -/
def IntrusivePtr_t_add_ref (p : Ptr) (t : Traced) : Traced :=
  match p with
  | some a =>
    { heap := Function.update t.heap a (t.heap a).AddReference,
      log := t.log ++ [{ call := Call.AddReference, addr := a }] }
  | none => t

/-- The helper `IntrusivePtr_t_release`, logging the call `p->RemoveReference()`. -/
def IntrusivePtr_t_release (p : Ptr) (t : Traced) : Traced :=
  match p with
  | some a =>
    { heap := Function.update t.heap a (t.heap a).RemoveReference,
      log := t.log ++ [{ call := Call.RemoveReference, addr := a }] }
  | none => t

/-- The constructor `IntrusivePtr_t(T *p, bool add_ref = true)`. -/
def ofPtr (p : Ptr) (add_ref : Bool) (t : Traced) : IntrusivePtr_t × Traced :=
  let self : IntrusivePtr_t := { px := p }
  if self.px ≠ none ∧ add_ref = true then (self, IntrusivePtr_t_add_ref self.px t)
  else (self, t)

/-- The copy constructor. -/
def copy (rhs : IntrusivePtr_t) (t : Traced) : IntrusivePtr_t × Traced :=
  let self : IntrusivePtr_t := { px := rhs.px }
  if self.px ≠ none then (self, IntrusivePtr_t_add_ref self.px t) else (self, t)

/-- The converting copy constructor. -/
def copyConv (rhs : IntrusivePtr_t) (t : Traced) : IntrusivePtr_t × Traced :=
  let self : IntrusivePtr_t := { px := rhs.get }
  if self.px ≠ none then (self, IntrusivePtr_t_add_ref self.px t) else (self, t)

/-- The destructor. -/
def destroy (self : IntrusivePtr_t) (t : Traced) : Traced :=
  if self.px ≠ none then IntrusivePtr_t_release self.px t else t

/-- The copy assignment `operator=(IntrusivePtr_t const & rhs)`. -/
def assign (self rhs : IntrusivePtr_t) (t : Traced) : IntrusivePtr_t × Traced :=
  let (tmp, t1) := copy rhs t
  let (tmp1, self1) := tmp.swap self
  (self1, destroy tmp1 t1)

/-- The converting assignment `operator=(IntrusivePtr_t<U> const & rhs)`. -/
def assignConv (self rhs : IntrusivePtr_t) (t : Traced) : IntrusivePtr_t × Traced :=
  let (tmp, t1) := copyConv rhs t
  let (tmp1, self1) := tmp.swap self
  (self1, destroy tmp1 t1)

/-- The assignment `operator=(T * rhs)`. -/
def assignPtr (self : IntrusivePtr_t) (rhs : Ptr) (t : Traced) : IntrusivePtr_t × Traced :=
  let (tmp, t1) := ofPtr rhs true t
  let (tmp1, self1) := tmp.swap self
  (self1, destroy tmp1 t1)

/-- The member `reset()`. -/
def reset (self : IntrusivePtr_t) (t : Traced) : IntrusivePtr_t × Traced :=
  let tmp := IntrusivePtr_t.empty
  let (tmp1, self1) := tmp.swap self
  (self1, destroy tmp1 t)

/-- The member `reset(T *rhs)`. -/
def resetPtr (self : IntrusivePtr_t) (rhs : Ptr) (t : Traced) : IntrusivePtr_t × Traced :=
  let (tmp, t1) := ofPtr rhs true t
  let (tmp1, self1) := tmp.swap self
  (self1, destroy tmp1 t1)

end Traced

/-- The calls made by `IntrusivePtr_t_add_ref(p)`: one `AddReference` on the target
of `p`, none for a null `p`. -/
def addCalls (p : Ptr) : List CallOn :=
  match p with
  | some a => [{ call := Call.AddReference, addr := a }]
  | none => []

/-- The calls made by `IntrusivePtr_t_release(p)`: one `RemoveReference` on the
target of `p`, none for a null `p`. -/
def removeCalls (p : Ptr) : List CallOn :=
  match p with
  | some a => [{ call := Call.RemoveReference, addr := a }]
  | none => []

/-! ## `reset` in the words of the specification -/

/-- Assigning an empty handle to `self`, the statement `self = IntrusivePtr_t();`:
the empty temporary is built, copy-assigned to `self`, and destroyed at the end of
the statement. -/
def spec_assign_empty_handle (self : IntrusivePtr_t) (h : Heap) : IntrusivePtr_t × Heap :=
  let rhs := IntrusivePtr_t.empty
  let (self1, h1) := self.assign rhs h
  (self1, rhs.destroy h1)

/-- Assigning to `self` a handle newly constructed from `p` with `add_ref = true`,
the statement `self = IntrusivePtr_t(p, true);`: the temporary is built from `p`,
copy-assigned to `self`, and destroyed at the end of the statement. -/
def spec_assign_new_handle (self : IntrusivePtr_t) (p : Ptr) (h : Heap) :
    IntrusivePtr_t × Heap :=
  let (rhs, h1) := IntrusivePtr_t.ofPtr p true h
  let (self1, h2) := self.assign rhs h1
  (self1, rhs.destroy h2)

/-! ## Two threads in `RemoveReference` -/

/-- A thread executing `RemoveReference`: `old` is the value returned by its
`fetch_sub` once that atomic step has run, `finished` says that its `if` statement
has run, and `deletes` that it has executed `delete this`. -/
structure Releasing where
  old : Option Int
  finished : Bool
  deletes : Bool
deriving DecidableEq, Repr

/-- A thread that has entered `RemoveReference` and not yet run `fetch_sub`. -/
def Releasing.start : Releasing := { old := none, finished := false, deletes := false }

/-- The next step of a thread in `RemoveReference` on the shared object: first the
atomic `fetch_sub(1)`, which stores the decremented value and returns the previous
one; then `if (old == 1) { ...; delete this; }`.  No step is left after that. -/
def Releasing.step (o : SafeRefCount_t) (t : Releasing) : Option (SafeRefCount_t × Releasing) :=
  match t.old with
  | none =>
    some ({ o with safeRefCount := wrapInt (o.safeRefCount - 1) },
      { t with old := some o.safeRefCount })
  | some v =>
    if t.finished = true then none
    else if v = 1 then
      some ({ o with deleted := o.deleted + 1 }, { t with finished := true, deletes := true })
    else some (o, { t with finished := true })

/-- The shared object and the two threads releasing it. -/
structure TwoThreads where
  obj : SafeRefCount_t
  t1 : Releasing
  t2 : Releasing
deriving DecidableEq, Repr

/-- One step of the thread chosen by the scheduler: `true` is the first thread,
`false` the second. -/
def TwoThreads.step (s : TwoThreads) (first : Bool) : Option TwoThreads :=
  if first = true then
    match s.t1.step s.obj with
    | some (o, t) => some { s with obj := o, t1 := t }
    | none => none
  else
    match s.t2.step s.obj with
    | some (o, t) => some { s with obj := o, t2 := t }
    | none => none

/-- Run a schedule, first choice first. -/
def TwoThreads.run : List Bool → TwoThreads → Option TwoThreads
  | [], s => some s
  | b :: bs, s => (s.step b).bind (TwoThreads.run bs)

/-! ## Programs that make no call on a deleted object -/

/-- The counting calls one operation makes, in order: the log of the logged
operation started from an empty log (none for `swap`, and none when the operation
names a handle that is not alive). -/
def Sys.calls (s : Sys) : Op → List CallOn
  | Op.construct p => (Traced.ofPtr p true { heap := s.heap, log := [] }).2.log
  | Op.copy j =>
    match s.handle j with
    | some rhs => (Traced.copy rhs { heap := s.heap, log := [] }).2.log
    | none => []
  | Op.copyConv j =>
    match s.handle j with
    | some rhs => (Traced.copyConv rhs { heap := s.heap, log := [] }).2.log
    | none => []
  | Op.assign i j =>
    match s.handle i, s.handle j with
    | some self, some rhs => (Traced.assign self rhs { heap := s.heap, log := [] }).2.log
    | _, _ => []
  | Op.assignConv i j =>
    match s.handle i, s.handle j with
    | some self, some rhs => (Traced.assignConv self rhs { heap := s.heap, log := [] }).2.log
    | _, _ => []
  | Op.assignPtr i p =>
    match s.handle i with
    | some self => (Traced.assignPtr self p { heap := s.heap, log := [] }).2.log
    | none => []
  | Op.reset i =>
    match s.handle i with
    | some self => (Traced.reset self { heap := s.heap, log := [] }).2.log
    | none => []
  | Op.resetPtr i p =>
    match s.handle i with
    | some self => (Traced.resetPtr self p { heap := s.heap, log := [] }).2.log
    | none => []
  | Op.swap _ _ => []
  | Op.static_pointer_cast j =>
    match s.handle j with
    | some p => (Traced.ofPtr p.get true { heap := s.heap, log := [] }).2.log
    | none => []
  | Op.const_pointer_cast j =>
    match s.handle j with
    | some p => (Traced.ofPtr p.get true { heap := s.heap, log := [] }).2.log
    | none => []
  | Op.destroy i =>
    match s.handle i with
    | some self => (Traced.destroy self { heap := s.heap, log := [] }).log
    | none => []

/-- One operation of a running program: `none`, undefined behaviour, when one of
its counting calls is made on an object that has already run `delete this`.  An
operation makes at most one `RemoveReference`, as its last call, so the objects
alive when its calls are made are those alive before the operation. -/
def Sys.stepLive (s : Sys) (op : Op) : Option Sys :=
  if (s.calls op).all (fun c => decide ((s.heap c.addr).deleted = 0)) = true then s.step op
  else none

/-- A sequence of operations, first operation first. -/
def Sys.run : List Op → Sys → Option Sys
  | [], s => some s
  | op :: ops, s => (s.stepLive op).bind (Sys.run ops)

/-- The states a program can be in: those reached from `init` by some sequence of
operations none of which makes a call on a deleted object. -/
def Sys.Reachable (s : Sys) : Prop := ∃ ops, Sys.run ops Sys.init = some s

/-! ## Arithmetic of the counter -/

theorem wrapInt_of_range (x : Int) (h1 : INT_MIN ≤ x) (h2 : x ≤ INT_MAX) : wrapInt x = x := by
  unfold INT_MIN at h1
  unfold INT_MAX at h2
  unfold wrapInt
  omega

theorem wrapInt_add_wrapInt (x y : Int) : wrapInt (wrapInt x + y) = wrapInt (x + y) := by
  unfold wrapInt
  omega

theorem wrapInt_sub_wrapInt (x y : Int) : wrapInt (wrapInt x - y) = wrapInt (x - y) := by
  unfold wrapInt
  omega

theorem wrapInt_range (x : Int) : INT_MIN ≤ wrapInt x ∧ wrapInt x ≤ INT_MAX := by
  unfold INT_MIN INT_MAX wrapInt
  omega

/-! ## The lifecycle of `main` -/

/-- C1: for every heap and every address `a` at which a fresh `SafeRefCount_t`
object is constructed (count 0), wrapping it in `H1` gives count 1, copying `H1`
into `H2` gives count 2, destroying either handle first gives count 1 with the
object not deleted, and destroying the remaining handle gives count 0 and runs
`delete this` exactly once; `main` itself ends in that last state. -/
theorem C1_lifecycle (h : Heap) (a : Nat) :
    let h0 := h.alloc a
    let r1 := IntrusivePtr_t.ofPtr (some a) true h0
    let r2 := IntrusivePtr_t.copy r1.1 r1.2
    let h3 := r1.1.destroy r2.2
    let h4 := r2.1.destroy h3
    let k3 := r2.1.destroy r2.2
    let k4 := r1.1.destroy k3
    ((h0 a).RefCount = 0 ∧ (h0 a).deleted = 0) ∧
    (r1.1.get = some a ∧ (r1.2 a).RefCount = 1 ∧ (r1.2 a).deleted = 0) ∧
    (r2.1.get = some a ∧ (r2.2 a).RefCount = 2 ∧ (r2.2 a).deleted = 0) ∧
    ((h3 a).RefCount = 1 ∧ (h3 a).deleted = 0) ∧
    ((h4 a).RefCount = 0 ∧ (h4 a).deleted = 1) ∧
    ((k3 a).RefCount = 1 ∧ (k3 a).deleted = 0) ∧
    ((k4 a).RefCount = 0 ∧ (k4 a).deleted = 1) ∧
    main h a = k4 := by
  simp [Heap.alloc, IntrusivePtr_t.ofPtr, IntrusivePtr_t.copy, IntrusivePtr_t.destroy,
    IntrusivePtr_t.get, IntrusivePtr_t_add_ref, IntrusivePtr_t_release,
    SafeRefCount_t.new, SafeRefCount_t.AddReference, SafeRefCount_t.RemoveReference,
    SafeRefCount_t.RefCount, main, wrapInt]

/-! ## Sequences of `AddReference` / `RemoveReference` on one object -/

theorem RefCount_eq (o : SafeRefCount_t) : o.RefCount = o.safeRefCount := rfl

theorem calls_cons (o : SafeRefCount_t) (x : Call) (xs : List Call) :
    o.calls (x :: xs) = (o.call x).calls xs := rfl

theorem unmatched_nil : unmatched [] = 0 := rfl

theorem unmatched_cons_add (xs : List Call) :
    unmatched (Call.AddReference :: xs) = unmatched xs + 1 := by
  simp [unmatched, List.count_cons]
  ring

theorem unmatched_cons_remove (xs : List Call) :
    unmatched (Call.RemoveReference :: xs) = unmatched xs - 1 := by
  simp [unmatched, List.count_cons]
  ring

theorem call_add_deleted (o : SafeRefCount_t) :
    (o.call Call.AddReference).deleted = o.deleted := rfl

theorem call_add_count (o : SafeRefCount_t) :
    (o.call Call.AddReference).safeRefCount = wrapInt (o.safeRefCount + 1) := rfl

theorem call_remove_count (o : SafeRefCount_t) :
    (o.call Call.RemoveReference).safeRefCount = wrapInt (o.safeRefCount - 1) := by
  simp only [SafeRefCount_t.call, SafeRefCount_t.RemoveReference]
  split <;> rfl

theorem call_remove_deleted (o : SafeRefCount_t) :
    (o.call Call.RemoveReference).deleted
      = if o.safeRefCount = 1 then o.deleted + 1 else o.deleted := by
  simp only [SafeRefCount_t.call, SafeRefCount_t.RemoveReference]
  split <;> rfl

/-- Whatever the order of the calls, the counter ends at the wrapped value of the
initial count plus the adds minus the removes. -/
theorem calls_count (l : List Call) (o : SafeRefCount_t)
    (h1 : INT_MIN ≤ o.safeRefCount) (h2 : o.safeRefCount ≤ INT_MAX) :
    (o.calls l).safeRefCount = wrapInt (o.safeRefCount + unmatched l) := by
  induction l generalizing o with
  | nil => simp [SafeRefCount_t.calls, unmatched_nil, wrapInt_of_range _ h1 h2]
  | cons x xs ih =>
    rw [calls_cons]
    cases x with
    | AddReference =>
      rw [ih _ (call_add_count o ▸ (wrapInt_range _).1) (call_add_count o ▸ (wrapInt_range _).2),
        call_add_count, wrapInt_add_wrapInt, unmatched_cons_add]
      congr 1
      ring
    | RemoveReference =>
      rw [ih _ (call_remove_count o ▸ (wrapInt_range _).1)
        (call_remove_count o ▸ (wrapInt_range _).2),
        call_remove_count, wrapInt_add_wrapInt, unmatched_cons_remove]
      congr 1
      ring

theorem call_count_of_range (o : SafeRefCount_t) (x : Call)
    (h0 : 1 ≤ o.safeRefCount)
    (h1 : o.safeRefCount + unmatched [x] ≤ INT_MAX) :
    (o.call x).safeRefCount = o.safeRefCount + unmatched [x] := by
  cases x with
  | AddReference =>
    rw [unmatched_cons_add, unmatched_nil] at h1 ⊢
    rw [call_add_count]
    apply wrapInt_of_range
    · unfold INT_MIN; omega
    · omega
  | RemoveReference =>
    rw [unmatched_cons_remove, unmatched_nil] at h1 ⊢
    rw [call_remove_count]
    apply wrapInt_of_range
    · unfold INT_MIN; omega
    · omega

theorem unmatched_cons (x : Call) (xs : List Call) :
    unmatched (x :: xs) = unmatched [x] + unmatched xs := by
  cases x with
  | AddReference => rw [unmatched_cons_add, unmatched_cons_add, unmatched_nil]; ring
  | RemoveReference => rw [unmatched_cons_remove, unmatched_cons_remove, unmatched_nil]; ring

theorem call_deleted_of_range (o : SafeRefCount_t) (x : Call) (h0 : 1 ≤ o.safeRefCount) :
    (o.call x).deleted
      = if o.safeRefCount + unmatched [x] = 0 then o.deleted + 1 else o.deleted := by
  cases x with
  | AddReference =>
    rw [unmatched_cons_add, unmatched_nil, call_add_deleted, if_neg (by omega)]
  | RemoveReference =>
    rw [unmatched_cons_remove, unmatched_nil, call_remove_deleted]
    by_cases hc : o.safeRefCount = 1
    · rw [if_pos hc, if_pos (by omega)]
    · rw [if_neg hc, if_neg (by omega)]

/-- While at least one claim is outstanding before every call and the counter stays
within `int`, no call but the last can delete the object, and the last one
deletes it exactly when it leaves no claim. -/
theorem calls_alive_until_end (l : List Call) (o : SafeRefCount_t)
    (hpos : ∀ k, k < l.length → 1 ≤ o.safeRefCount + unmatched (l.take k))
    (hmax : ∀ k, k ≤ l.length → o.safeRefCount + unmatched (l.take k) ≤ INT_MAX) :
    (∀ k, k < l.length → (o.calls (l.take k)).deleted = o.deleted) ∧
    (o.calls l).deleted
      = if l ≠ [] ∧ o.safeRefCount + unmatched l = 0 then o.deleted + 1 else o.deleted := by
  induction l generalizing o with
  | nil => simp [SafeRefCount_t.calls]
  | cons x xs ih =>
    have h0 : 1 ≤ o.safeRefCount := by
      have := hpos 0 (by simp)
      simpa [unmatched_nil] using this
    have h1 : o.safeRefCount + unmatched [x] ≤ INT_MAX := by
      have := hmax 1 (by simp)
      simpa using this
    have hc := call_count_of_range o x h0 h1
    have hd := call_deleted_of_range o x h0
    have hpos1 : ∀ k, k < xs.length →
        1 ≤ (o.call x).safeRefCount + unmatched (xs.take k) := by
      intro k hk
      have := hpos (k + 1) (by simpa using hk)
      rw [List.take_succ_cons, unmatched_cons] at this
      rw [hc]; omega
    have hmax1 : ∀ k, k ≤ xs.length →
        (o.call x).safeRefCount + unmatched (xs.take k) ≤ INT_MAX := by
      intro k hk
      have := hmax (k + 1) (by simpa using hk)
      rw [List.take_succ_cons, unmatched_cons] at this
      rw [hc]; omega
    obtain ⟨ih1, ih2⟩ := ih (o.call x) hpos1 hmax1
    have hkeep : xs ≠ [] → (o.call x).deleted = o.deleted := by
      intro hne
      have := hpos1 0 (List.length_pos.mpr hne)
      rw [List.take_zero, unmatched_nil, hc] at this
      rw [hd, if_neg (by omega)]
    refine ⟨?_, ?_⟩
    · intro k hk
      cases k with
      | zero => rfl
      | succ j =>
        have hj : j < xs.length := by simpa using hk
        rw [List.take_succ_cons, calls_cons, ih1 j hj]
        exact hkeep (List.length_pos.mp (by omega))
    · rw [calls_cons, ih2, hc, unmatched_cons x xs]
      by_cases hne : xs = []
      · subst hne
        simp only [ne_eq, not_true_eq_false, false_and, if_false, unmatched_nil, add_zero,
          not_false_eq_true, true_and, reduceCtorEq]
        rw [hd]
      · rw [hkeep hne]
        simp only [ne_eq, hne, not_false_eq_true, true_and, reduceCtorEq, add_assoc]

theorem calls_singleton (o : SafeRefCount_t) (x : Call) : o.calls [x] = o.call x := rfl

theorem calls_append (o : SafeRefCount_t) (l1 l2 : List Call) :
    o.calls (l1 ++ l2) = (o.calls l1).calls l2 := by
  simp [SafeRefCount_t.calls, List.foldl_append]

theorem calls_replicate_add_deleted (n : Nat) (o : SafeRefCount_t) :
    (o.calls (List.replicate n Call.AddReference)).deleted = o.deleted := by
  induction n generalizing o with
  | zero => rfl
  | succ n ih => rw [List.replicate_succ, calls_cons, ih, call_add_deleted]

theorem unmatched_replicate_add (n : Nat) :
    unmatched (List.replicate n Call.AddReference) = n := by
  simp [unmatched, List.count_replicate]

theorem unmatched_append (l1 l2 : List Call) :
    unmatched (l1 ++ l2) = unmatched l1 + unmatched l2 := by
  simp [unmatched, List.count_append]
  ring

theorem unmatched_replicate_remove (n : Nat) :
    unmatched (List.replicate n Call.RemoveReference) = -(n : Int) := by
  simp [unmatched, List.count_replicate]

theorem unmatched_take_adds_removes (n k : Nat) :
    unmatched ((List.replicate n Call.AddReference
      ++ List.replicate n Call.RemoveReference).take k)
      = (min k n : Nat) - ((min (k - n) n : Nat) : Int) := by
  rw [List.take_append_eq_append_take, unmatched_append, List.take_replicate,
    List.take_replicate, unmatched_replicate_add, unmatched_replicate_remove,
    List.length_replicate]
  ring

/-- C2, as stated, fails: the empty sequence is properly paired and deletes
nothing; the sequence add, remove, add, remove is properly paired, yet
`delete this` has run after its first two calls, before the last
`RemoveReference`; and after 4294967297 `AddReference` calls, with every one of
them still unmatched, the counter has wrapped to 1 and the first of the matching
`RemoveReference` calls already deletes the object. -/
theorem C2_counterexample :
    (properlyPaired [] ∧ (SafeRefCount_t.new.calls []).deleted = 0) ∧
    (properlyPaired [Call.AddReference, Call.RemoveReference,
        Call.AddReference, Call.RemoveReference] ∧
      [Call.AddReference, Call.RemoveReference,
        Call.AddReference, Call.RemoveReference].take 2
        = [Call.AddReference, Call.RemoveReference] ∧
      (SafeRefCount_t.new.calls [Call.AddReference, Call.RemoveReference]).deleted = 1) ∧
    (properlyPaired (List.replicate 4294967297 Call.AddReference
        ++ List.replicate 4294967297 Call.RemoveReference) ∧
      (∀ k, 0 < k → k < 4294967297 + 4294967297 →
        1 ≤ unmatched ((List.replicate 4294967297 Call.AddReference
          ++ List.replicate 4294967297 Call.RemoveReference).take k)) ∧
      (List.replicate 4294967297 Call.AddReference
          ++ List.replicate 4294967297 Call.RemoveReference).take 4294967298
        = List.replicate 4294967297 Call.AddReference ++ [Call.RemoveReference] ∧
      (SafeRefCount_t.new.calls
        (List.replicate 4294967297 Call.AddReference ++ [Call.RemoveReference])).deleted
        = 1) := by
  refine ⟨⟨by decide, by decide⟩, ⟨by decide, by decide, by decide⟩, ⟨?_, ?_⟩, ?_, ?_, ?_⟩
  · intro k _
    rw [unmatched_take_adds_removes]
    omega
  · rw [unmatched_append, unmatched_replicate_add, unmatched_replicate_remove]
    omega
  · intro k _ hk
    rw [unmatched_take_adds_removes]
    omega
  · rw [List.take_append_eq_append_take, List.take_replicate, List.take_replicate,
      List.length_replicate]
    have e1 : min 4294967298 4294967297 = 4294967297 := by omega
    have e2 : min (4294967298 - 4294967297) 4294967297 = 1 := by omega
    rw [e1, e2, List.replicate_one]
  · rw [calls_append]
    have hc := calls_count (List.replicate 4294967297 Call.AddReference) SafeRefCount_t.new
      (by decide) (by decide)
    rw [unmatched_replicate_add] at hc
    have hd := calls_replicate_add_deleted 4294967297 SafeRefCount_t.new
    have h1 : (SafeRefCount_t.new.calls
        (List.replicate 4294967297 Call.AddReference)).safeRefCount = 1 := by
      rw [hc]; decide
    rw [calls_singleton, call_remove_deleted, if_pos h1, hd]
    rfl

theorem unmatched_singleton_ne_zero (x : Call) : unmatched [x] ≠ 0 := by
  cases x <;> decide

theorem unmatched_singleton_pos (x : Call) (h : 1 ≤ unmatched [x]) :
    x = Call.AddReference := by
  cases x with
  | AddReference => rfl
  | RemoveReference => exact absurd h (by decide)

theorem getLast?_cons_of_ne_nil (x : Call) (xs : List Call) (h : xs ≠ []) :
    (x :: xs).getLast? = xs.getLast? := by
  cases xs with
  | nil => exact absurd rfl h
  | cons y ys => simp [List.getLast?_cons_cons]

theorem getLast_remove_of_unmatched (l : List Call) (c : Int)
    (hpos : ∀ k, k < l.length → 1 ≤ c + unmatched (l.take k))
    (hne : l ≠ []) (hzero : c + unmatched l = 0) :
    l.getLast? = some Call.RemoveReference := by
  induction l generalizing c with
  | nil => exact absurd rfl hne
  | cons x xs ih =>
    by_cases hxs : xs = []
    · subst hxs
      have h0 := hpos 0 (by simp)
      rw [List.take_zero, unmatched_nil] at h0
      cases x with
      | RemoveReference => rfl
      | AddReference => rw [unmatched_cons_add, unmatched_nil] at hzero; omega
    · rw [getLast?_cons_of_ne_nil x xs hxs]
      apply ih (c + unmatched [x])
      · intro k hk
        have := hpos (k + 1) (by simpa using hk)
        rw [List.take_succ_cons, unmatched_cons] at this
        omega
      · exact hxs
      · rw [unmatched_cons] at hzero
        omega

/-- C2 (amended): for every non-empty properly paired sequence of calls on a fresh
object in which at least one claim is outstanding after every call but the last,
and in which the outstanding claims never exceed `INT_MAX`, `delete this` has run
exactly once after the sequence, it has not run after any shorter prefix, and the
last call, the one that deletes, is a `RemoveReference`. -/
theorem C2_destroyed_once_at_last_remove (l : List Call)
    (hpaired : properlyPaired l) (hne : l ≠ [])
    (hopen : ∀ k, 0 < k → k < l.length → 1 ≤ unmatched (l.take k))
    (hmax : ∀ k, k ≤ l.length → unmatched (l.take k) ≤ INT_MAX) :
    (SafeRefCount_t.new.calls l).deleted = 1 ∧
    (∀ k, k < l.length → (SafeRefCount_t.new.calls (l.take k)).deleted = 0) ∧
    l.getLast? = some Call.RemoveReference := by
  obtain ⟨_, hzero⟩ := hpaired
  cases l with
  | nil => exact absurd rfl hne
  | cons x xs =>
    have hxs : xs ≠ [] := by
      intro h
      subst h
      exact unmatched_singleton_ne_zero x hzero
    have hlen : 0 < xs.length := List.length_pos.mpr hxs
    have hx : x = Call.AddReference := by
      apply unmatched_singleton_pos
      have := hopen 1 (by omega) (by simp only [List.length_cons]; omega)
      simpa using this
    subst hx
    have hc : (SafeRefCount_t.new.call Call.AddReference).safeRefCount = 1 := by decide
    have hd : (SafeRefCount_t.new.call Call.AddReference).deleted = 0 := rfl
    have hpos1 : ∀ k, k < xs.length →
        1 ≤ (SafeRefCount_t.new.call Call.AddReference).safeRefCount
          + unmatched (xs.take k) := by
      intro k hk
      have := hopen (k + 1) (by omega) (by simp only [List.length_cons]; omega)
      rw [List.take_succ_cons, unmatched_cons_add] at this
      rw [hc]; omega
    have hmax1 : ∀ k, k ≤ xs.length →
        (SafeRefCount_t.new.call Call.AddReference).safeRefCount
          + unmatched (xs.take k) ≤ INT_MAX := by
      intro k hk
      have := hmax (k + 1) (by simpa using hk)
      rw [List.take_succ_cons, unmatched_cons_add] at this
      rw [hc]; omega
    obtain ⟨h1, h2⟩ := calls_alive_until_end xs _ hpos1 hmax1
    have hz1 : (SafeRefCount_t.new.call Call.AddReference).safeRefCount + unmatched xs = 0 := by
      rw [unmatched_cons_add] at hzero
      rw [hc]; omega
    refine ⟨?_, ?_, ?_⟩
    · rw [calls_cons, h2, if_pos ⟨hxs, hz1⟩, hd]
    · intro k hk
      cases k with
      | zero => rfl
      | succ j =>
        rw [List.take_succ_cons, calls_cons, h1 j (by simpa using hk), hd]
    · rw [getLast?_cons_of_ne_nil _ xs hxs]
      exact getLast_remove_of_unmatched xs _ hpos1 hxs hz1

/-- C2 (amended) at the sequence add, add, remove, remove. -/
theorem C2_destroyed_once_at_last_remove_witness :
    (SafeRefCount_t.new.calls [Call.AddReference, Call.AddReference,
      Call.RemoveReference, Call.RemoveReference]).deleted = 1 ∧
    (∀ k, k < [Call.AddReference, Call.AddReference,
        Call.RemoveReference, Call.RemoveReference].length →
      (SafeRefCount_t.new.calls ([Call.AddReference, Call.AddReference,
        Call.RemoveReference, Call.RemoveReference].take k)).deleted = 0) ∧
    [Call.AddReference, Call.AddReference,
      Call.RemoveReference, Call.RemoveReference].getLast? = some Call.RemoveReference :=
  C2_destroyed_once_at_last_remove
    [Call.AddReference, Call.AddReference, Call.RemoveReference, Call.RemoveReference]
    (by decide)
    (by decide)
    (by intro k h0 hk
        simp only [List.length_cons, List.length_nil] at hk
        interval_cases k <;> decide)
    (by intro k hk
        simp only [List.length_cons, List.length_nil] at hk
        interval_cases k <;> decide)

/-- While no `RemoveReference` is called when the counter reads 1, no call of the
sequence runs `delete this`. -/
theorem calls_never_delete (l : List Call) (o : SafeRefCount_t)
    (h1 : INT_MIN ≤ o.safeRefCount) (h2 : o.safeRefCount ≤ INT_MAX)
    (hlive : ∀ k, k < l.length → l[k]? = some Call.RemoveReference →
      wrapInt (o.safeRefCount + unmatched (l.take k)) ≠ 1) :
    ∀ k, k ≤ l.length → (o.calls (l.take k)).deleted = o.deleted := by
  induction l generalizing o with
  | nil =>
    intro k _
    rw [List.take_nil]
    rfl
  | cons x xs ih =>
    intro k hk
    cases k with
    | zero => rfl
    | succ j =>
      have hj : j ≤ xs.length := by simpa using hk
      have hstep : (o.call x).deleted = o.deleted := by
        cases x with
        | AddReference => rfl
        | RemoveReference =>
          have h0 := hlive 0 (by simp) (by simp)
          rw [List.take_zero, unmatched_nil, add_zero, wrapInt_of_range _ h1 h2] at h0
          rw [call_remove_deleted, if_neg h0]
      have hcount : (o.call x).safeRefCount = wrapInt (o.safeRefCount + unmatched [x]) := by
        cases x with
        | AddReference => rw [call_add_count, unmatched_cons_add, unmatched_nil, zero_add]
        | RemoveReference =>
          rw [call_remove_count, unmatched_cons_remove, unmatched_nil]
          congr 1
      rw [List.take_succ_cons, calls_cons, ← hstep]
      apply ih (o.call x) (hcount ▸ (wrapInt_range _).1) (hcount ▸ (wrapInt_range _).2) _ j hj
      intro n hn hr
      have := hlive (n + 1) (by simpa using hn) (by simpa using hr)
      rw [List.take_succ_cons, unmatched_cons, ← add_assoc, ← wrapInt_add_wrapInt,
        ← hcount] at this
      exact this

/-- C3, as stated, fails: 2147483648 `AddReference` calls and no `RemoveReference`
on a fresh object (N = 2147483648, M = 0) leave `RefCount()` at -2147483648, the
counter having wrapped, and not at N - M = 2147483648; and in the interleaving add,
remove, add (N = 2, M = 1) the second call has run `delete this`, so that the third
call and `RefCount()` afterwards are made on a deleted object. -/
theorem C3_counterexample :
    ((List.replicate 2147483648 Call.AddReference).count Call.AddReference = 2147483648 ∧
      (List.replicate 2147483648 Call.AddReference).count Call.RemoveReference = 0 ∧
      (SafeRefCount_t.new.calls (List.replicate 2147483648 Call.AddReference)).deleted = 0 ∧
      (SafeRefCount_t.new.calls (List.replicate 2147483648 Call.AddReference)).RefCount
        = -2147483648 ∧
      (SafeRefCount_t.new.calls (List.replicate 2147483648 Call.AddReference)).RefCount
        ≠ (2147483648 : Int) - 0) ∧
    ([Call.AddReference, Call.RemoveReference, Call.AddReference].count Call.AddReference = 2 ∧
      [Call.AddReference, Call.RemoveReference, Call.AddReference].count Call.RemoveReference
        = 1 ∧
      [Call.AddReference, Call.RemoveReference, Call.AddReference].take 2
        = [Call.AddReference, Call.RemoveReference] ∧
      (SafeRefCount_t.new.calls [Call.AddReference, Call.RemoveReference]).deleted = 1) := by
  have hc := calls_count (List.replicate 2147483648 Call.AddReference) SafeRefCount_t.new
    (by decide) (by decide)
  rw [unmatched_replicate_add] at hc
  have hv : (SafeRefCount_t.new.calls
      (List.replicate 2147483648 Call.AddReference)).RefCount = -2147483648 := by
    rw [RefCount_eq, hc]; decide
  refine ⟨⟨?_, ?_, calls_replicate_add_deleted _ _, hv, ?_⟩,
    by decide, by decide, by decide, by decide⟩
  · rw [List.count_replicate]; rfl
  · rw [List.count_replicate]; rfl
  · rw [hv]; decide

/-- C3 (amended): for every sequence of calls on a fresh object made of N
`AddReference` and M `RemoveReference` calls in any order, with M ≤ N and
N - M ≤ `INT_MAX`, in which no `RemoveReference` is called while the counter reads 1
(`hlive`: the counter reads the wrapped number of unmatched `AddReference` calls),
no call runs `delete this`, so that every call and `RefCount()` afterwards are made
on the live object, and `RefCount()` afterwards equals N - M. -/
theorem C3_refcount_after_adds_removes (l : List Call) (N M : Nat)
    (hN : l.count Call.AddReference = N) (hM : l.count Call.RemoveReference = M)
    (hge : M ≤ N) (hmax : (N : Int) - (M : Int) ≤ INT_MAX)
    (hlive : ∀ k, k < l.length → l[k]? = some Call.RemoveReference →
      wrapInt (unmatched (l.take k)) ≠ 1) :
    (∀ k, k ≤ l.length → (SafeRefCount_t.new.calls (l.take k)).deleted = 0) ∧
    (∀ k, k < l.length → l[k]? = some Call.RemoveReference →
      (SafeRefCount_t.new.calls (l.take k)).RefCount ≠ 1) ∧
    (SafeRefCount_t.new.calls l).RefCount = (N : Int) - (M : Int) := by
  have h0 : SafeRefCount_t.new.safeRefCount = 0 := rfl
  refine ⟨?_, ?_, ?_⟩
  · intro k hk
    exact calls_never_delete l SafeRefCount_t.new (by decide) (by decide)
      (fun n hn hr => by rw [h0, zero_add]; exact hlive n hn hr) k hk
  · intro k hk hr
    rw [RefCount_eq, calls_count _ SafeRefCount_t.new (by decide) (by decide), h0, zero_add]
    exact hlive k hk hr
  · rw [RefCount_eq, calls_count l SafeRefCount_t.new (by decide) (by decide)]
    have hu : unmatched l = (N : Int) - (M : Int) := by rw [unmatched, hN, hM]
    rw [hu, h0, zero_add]
    apply wrapInt_of_range
    · unfold INT_MIN; omega
    · exact hmax

/-- C3 (amended) at the interleaving add, add, remove, add. -/
theorem C3_refcount_after_adds_removes_witness :
    (∀ k, k ≤ [Call.AddReference, Call.AddReference, Call.RemoveReference,
        Call.AddReference].length →
      (SafeRefCount_t.new.calls ([Call.AddReference, Call.AddReference,
        Call.RemoveReference, Call.AddReference].take k)).deleted = 0) ∧
    (SafeRefCount_t.new.calls [Call.AddReference, Call.AddReference, Call.RemoveReference,
      Call.AddReference]).RefCount = ((3 : Nat) : Int) - ((1 : Nat) : Int) := by
  have h := C3_refcount_after_adds_removes
    [Call.AddReference, Call.AddReference, Call.RemoveReference, Call.AddReference] 3 1
    (by decide) (by decide) (by decide) (by decide)
    (by intro k hk hr
        simp only [List.length_cons, List.length_nil] at hk
        interval_cases k <;> first | (exact absurd hr (by decide)) | decide)
  exact ⟨h.1, h.2.2⟩

/-! ## The effect of the helper functions and of the handle operations on the heap -/

theorem add_ref_count (p : Ptr) (h : Heap) (a : Nat) :
    (IntrusivePtr_t_add_ref p h a).safeRefCount
      = if p = some a then wrapInt ((h a).safeRefCount + 1) else (h a).safeRefCount := by
  cases p with
  | none => simp [IntrusivePtr_t_add_ref]
  | some b =>
    by_cases hb : b = a
    · subst hb; simp [IntrusivePtr_t_add_ref, SafeRefCount_t.AddReference]
    · have hb1 : a ≠ b := fun e => hb e.symm
      simp [IntrusivePtr_t_add_ref, Function.update_noteq hb1, hb]

theorem add_ref_deleted (p : Ptr) (h : Heap) (a : Nat) :
    (IntrusivePtr_t_add_ref p h a).deleted = (h a).deleted := by
  cases p with
  | none => simp [IntrusivePtr_t_add_ref]
  | some b =>
    by_cases hb : b = a
    · subst hb; simp [IntrusivePtr_t_add_ref, SafeRefCount_t.AddReference]
    · have hb1 : a ≠ b := fun e => hb e.symm
      simp [IntrusivePtr_t_add_ref, Function.update_noteq hb1]

theorem RemoveReference_count (o : SafeRefCount_t) :
    o.RemoveReference.safeRefCount = wrapInt (o.safeRefCount - 1) := call_remove_count o

theorem RemoveReference_deleted (o : SafeRefCount_t) :
    o.RemoveReference.deleted = if o.safeRefCount = 1 then o.deleted + 1 else o.deleted :=
  call_remove_deleted o

theorem release_count (p : Ptr) (h : Heap) (a : Nat) :
    (IntrusivePtr_t_release p h a).safeRefCount
      = if p = some a then wrapInt ((h a).safeRefCount - 1) else (h a).safeRefCount := by
  cases p with
  | none => simp [IntrusivePtr_t_release]
  | some b =>
    by_cases hb : b = a
    · subst hb; simp [IntrusivePtr_t_release, RemoveReference_count]
    · have hb1 : a ≠ b := fun e => hb e.symm
      simp [IntrusivePtr_t_release, Function.update_noteq hb1, hb]

theorem release_deleted (p : Ptr) (h : Heap) (a : Nat) :
    (IntrusivePtr_t_release p h a).deleted
      = if p = some a ∧ (h a).safeRefCount = 1 then (h a).deleted + 1 else (h a).deleted := by
  cases p with
  | none => simp [IntrusivePtr_t_release]
  | some b =>
    by_cases hb : b = a
    · subst hb; simp [IntrusivePtr_t_release, RemoveReference_deleted]
    · have hb1 : a ≠ b := fun e => hb e.symm
      simp [IntrusivePtr_t_release, Function.update_noteq hb1, hb]

theorem ofPtr_true (p : Ptr) (h : Heap) :
    IntrusivePtr_t.ofPtr p true h = ({ px := p }, IntrusivePtr_t_add_ref p h) := by
  cases p <;> simp [IntrusivePtr_t.ofPtr, IntrusivePtr_t_add_ref]

theorem ofPtr_false (p : Ptr) (h : Heap) :
    IntrusivePtr_t.ofPtr p false h = ({ px := p }, h) := by
  simp [IntrusivePtr_t.ofPtr]

theorem copy_eq (rhs : IntrusivePtr_t) (h : Heap) :
    IntrusivePtr_t.copy rhs h = ({ px := rhs.px }, IntrusivePtr_t_add_ref rhs.px h) := by
  cases rhs with
  | mk p => cases p <;> simp [IntrusivePtr_t.copy, IntrusivePtr_t_add_ref]

theorem copyConv_eq (rhs : IntrusivePtr_t) (h : Heap) :
    IntrusivePtr_t.copyConv rhs h = ({ px := rhs.px }, IntrusivePtr_t_add_ref rhs.px h) := by
  cases rhs with
  | mk p => cases p <;> simp [IntrusivePtr_t.copyConv, IntrusivePtr_t.get, IntrusivePtr_t_add_ref]

theorem destroy_eq (self : IntrusivePtr_t) (h : Heap) :
    self.destroy h = IntrusivePtr_t_release self.px h := by
  cases self with
  | mk p => cases p <;> simp [IntrusivePtr_t.destroy, IntrusivePtr_t_release]

theorem assign_eq (self rhs : IntrusivePtr_t) (h : Heap) :
    self.assign rhs h
      = ({ px := rhs.px }, IntrusivePtr_t_release self.px (IntrusivePtr_t_add_ref rhs.px h)) := by
  simp [IntrusivePtr_t.assign, copy_eq, IntrusivePtr_t.swap, destroy_eq]

theorem assignConv_eq (self rhs : IntrusivePtr_t) (h : Heap) :
    self.assignConv rhs h
      = ({ px := rhs.px }, IntrusivePtr_t_release self.px (IntrusivePtr_t_add_ref rhs.px h)) := by
  simp [IntrusivePtr_t.assignConv, copyConv_eq, IntrusivePtr_t.swap, destroy_eq]

theorem assignPtr_eq (self : IntrusivePtr_t) (p : Ptr) (h : Heap) :
    self.assignPtr p h
      = ({ px := p }, IntrusivePtr_t_release self.px (IntrusivePtr_t_add_ref p h)) := by
  simp [IntrusivePtr_t.assignPtr, ofPtr_true, IntrusivePtr_t.swap, destroy_eq]

theorem resetPtr_eq (self : IntrusivePtr_t) (p : Ptr) (h : Heap) :
    self.resetPtr p h
      = ({ px := p }, IntrusivePtr_t_release self.px (IntrusivePtr_t_add_ref p h)) := by
  simp [IntrusivePtr_t.resetPtr, ofPtr_true, IntrusivePtr_t.swap, destroy_eq]

theorem reset_eq (self : IntrusivePtr_t) (h : Heap) :
    self.reset h = ({ px := none }, IntrusivePtr_t_release self.px h) := by
  simp [IntrusivePtr_t.reset, IntrusivePtr_t.empty, IntrusivePtr_t.swap, destroy_eq]

theorem static_pointer_cast_eq (p : IntrusivePtr_t) (h : Heap) :
    static_pointer_cast p h = ({ px := p.px }, IntrusivePtr_t_add_ref p.px h) := by
  simp [static_pointer_cast, IntrusivePtr_t.get, ofPtr_true]

theorem const_pointer_cast_eq (p : IntrusivePtr_t) (h : Heap) :
    const_pointer_cast p h = ({ px := p.px }, IntrusivePtr_t_add_ref p.px h) := by
  simp [const_pointer_cast, IntrusivePtr_t.get, ofPtr_true]

theorem countP_set_add {α : Type} (q : α → Bool) (l : List α) (i : Nat) (old new : α)
    (h : l[i]? = some old) :
    (l.set i new).countP q + (if q old = true then 1 else 0)
      = l.countP q + (if q new = true then 1 else 0) := by
  induction l generalizing i with
  | nil => simp at h
  | cons x xs ih =>
    cases i with
    | zero =>
      simp only [List.getElem?_cons_zero, Option.some.injEq] at h
      subst h
      simp only [List.set_cons_zero, List.countP_cons]
      omega
    | succ j =>
      simp only [List.getElem?_cons_succ] at h
      have := ih j h
      simp only [List.set_cons_succ, List.countP_cons]
      omega

/-! ## The counting invariant of programs that work through handles -/

theorem handles_of_handle (s : Sys) (i : Nat) (x : IntrusivePtr_t)
    (h : s.handle i = some x) : s.handles[i]? = some (some x) := by
  unfold Sys.handle at h
  split at h
  · rename_i y hy
    simp only [Option.some.injEq] at h
    rw [hy, h]
  · exact absurd h (by simp)

theorem pointsTo_some (a : Nat) (x : IntrusivePtr_t) :
    (Sys.pointsTo a (some x) = true) ↔ x.px = some a := by
  simp [Sys.pointsTo, IntrusivePtr_t.get]

theorem pointsTo_none (a : Nat) : ¬ (Sys.pointsTo a none = true) := by
  simp [Sys.pointsTo]

theorem claims_push (s : Sys) (r : IntrusivePtr_t × Heap) (a : Nat) :
    (s.push r).claims a = s.claims a + (if r.1.px = some a then 1 else 0) := by
  simp only [Sys.claims, Sys.push, List.countP_append, List.countP_cons, List.countP_nil,
    pointsTo_some, zero_add]

/-- A constructor that claims `p` for a new handle keeps the invariant and deletes
nothing. -/
theorem push_spec (s : Sys) (p : Ptr) (hinv : s.Inv) :
    (s.push ({ px := p }, IntrusivePtr_t_add_ref p s.heap)).Inv ∧
    ∀ a, (s.push ({ px := p }, IntrusivePtr_t_add_ref p s.heap)).claims a
          = s.claims a + (if p = some a then 1 else 0) ∧
      ((s.push ({ px := p }, IntrusivePtr_t_add_ref p s.heap)).heap a).deleted
          = (s.heap a).deleted := by
  refine ⟨?_, ?_⟩
  · intro a
    rw [claims_push]
    show (IntrusivePtr_t_add_ref p s.heap a).safeRefCount = _
    rw [add_ref_count, hinv a]
    by_cases hp : p = some a
    · simp only [hp, if_true]
      rw [wrapInt_add_wrapInt]
      push_cast
      rfl
    · simp only [hp, if_false, add_zero]
  · intro a
    refine ⟨claims_push s _ a, ?_⟩
    show (IntrusivePtr_t_add_ref p s.heap a).deleted = _
    rw [add_ref_deleted]

theorem claims_pos_of_handle (s : Sys) (i : Nat) (old : IntrusivePtr_t) (a : Nat)
    (hold : s.handle i = some old) (hq : old.px = some a) : 1 ≤ s.claims a := by
  have := countP_set_add (Sys.pointsTo a) s.handles i (some old) none
    (handles_of_handle s i old hold)
  rw [if_pos ((pointsTo_some a old).mpr hq), if_neg (pointsTo_none a)] at this
  unfold Sys.claims
  omega

/-- A member call that first claims `p` and then releases the previous target of
handle `i`, leaving that handle with the value `v` whose target is `p`, keeps the
invariant and deletes an object exactly when its number of handles drops from 1
to 0. -/
theorem put_spec (s : Sys) (i : Nat) (old : IntrusivePtr_t) (v : Option IntrusivePtr_t)
    (p : Ptr) (hv : (v = none ∧ p = none) ∨ v = some { px := p })
    (hold : s.handle i = some old) (hinv : s.Inv) :
    Sys.Inv { heap := IntrusivePtr_t_release old.px (IntrusivePtr_t_add_ref p s.heap),
              handles := s.handles.set i v } ∧
    ∀ a, s.claims a ≤ INT_MAX →
      (IntrusivePtr_t_release old.px (IntrusivePtr_t_add_ref p s.heap) a).deleted
        = if s.claims a = 1 ∧ (s.handles.set i v).countP (Sys.pointsTo a) = 0
          then (s.heap a).deleted + 1 else (s.heap a).deleted := by
  have hcount : ∀ a, (s.handles.set i v).countP (Sys.pointsTo a)
      + (if old.px = some a then 1 else 0)
      = s.claims a + (if p = some a then 1 else 0) := by
    intro a
    have := countP_set_add (Sys.pointsTo a) s.handles i (some old) v
      (handles_of_handle s i old hold)
    have hvi : (Sys.pointsTo a v = true) ↔ p = some a := by
      rcases hv with ⟨h1, h2⟩ | h1
      · subst h1; subst h2; simp [Sys.pointsTo]
      · subst h1; simp [Sys.pointsTo, IntrusivePtr_t.get]
    simp only [pointsTo_some, hvi] at this
    exact this
  refine ⟨?_, ?_⟩
  · intro a
    have hc := hcount a
    show (IntrusivePtr_t_release old.px (IntrusivePtr_t_add_ref p s.heap) a).safeRefCount
      = wrapInt ((s.handles.set i v).countP (Sys.pointsTo a) : Nat)
    rw [release_count, add_ref_count, hinv a]
    by_cases hq : old.px = some a <;> by_cases hp : p = some a <;>
      simp only [hq, hp, if_true, if_false, add_zero] at hc ⊢
    · rw [wrapInt_add_wrapInt, wrapInt_sub_wrapInt]
      congr 1
      omega
    · rw [wrapInt_sub_wrapInt]
      congr 1
      omega
    · rw [wrapInt_add_wrapInt]
      congr 1
      omega
    · congr 2
      omega
  · intro a hle
    have hc := hcount a
    have hcnt : (s.heap a).safeRefCount = (s.claims a : Int) := by
      rw [hinv a]
      apply wrapInt_of_range _ _ hle
      unfold INT_MIN
      omega
    rw [release_deleted, add_ref_deleted, add_ref_count, hcnt]
    unfold INT_MAX at hle
    by_cases hq : old.px = some a
    · have hpos := claims_pos_of_handle s i old a hold hq
      by_cases hp : p = some a
      · simp only [hq, hp, if_true, true_and] at hc ⊢
        have h1 : ¬ wrapInt ((s.claims a : Int) + 1) = 1 := by
          unfold wrapInt; omega
        rw [if_neg h1, if_neg (by omega)]
      · simp only [hq, hp, if_true, if_false, true_and, add_zero] at hc ⊢
        by_cases h1 : s.claims a = 1
        · rw [if_pos (by omega), if_pos ⟨h1, by omega⟩]
        · rw [if_neg (by omega), if_neg (by omega)]
    · simp only [hq, if_false, false_and, add_zero] at hc ⊢
      rw [if_neg]
      intro ⟨h1, h2⟩
      split at hc <;> omega

/-- The form of `push_spec` used for a step of the program. -/
theorem push_step (s : Sys) (p : Ptr) (hinv : s.Inv) :
    (s.push ({ px := p }, IntrusivePtr_t_add_ref p s.heap)).Inv ∧
    ∀ a, s.claims a ≤ INT_MAX →
      ((s.push ({ px := p }, IntrusivePtr_t_add_ref p s.heap)).heap a).deleted
        = if s.claims a = 1
            ∧ (s.push ({ px := p }, IntrusivePtr_t_add_ref p s.heap)).claims a = 0
          then (s.heap a).deleted + 1 else (s.heap a).deleted := by
  obtain ⟨h1, h2⟩ := push_spec s p hinv
  refine ⟨h1, ?_⟩
  intro a _
  obtain ⟨h3, h4⟩ := h2 a
  rw [h4, if_neg]
  intro ⟨h5, h6⟩
  rw [h3] at h6
  omega

/-- The form of `put_spec` used for a step of the program. -/
theorem put_step (s : Sys) (i : Nat) (old : IntrusivePtr_t) (p : Ptr)
    (hold : s.handle i = some old) (hinv : s.Inv) :
    (s.put i ({ px := p },
      IntrusivePtr_t_release old.px (IntrusivePtr_t_add_ref p s.heap))).Inv ∧
    ∀ a, s.claims a ≤ INT_MAX →
      ((s.put i ({ px := p },
          IntrusivePtr_t_release old.px (IntrusivePtr_t_add_ref p s.heap))).heap a).deleted
        = if s.claims a = 1
            ∧ (s.put i ({ px := p },
                IntrusivePtr_t_release old.px (IntrusivePtr_t_add_ref p s.heap))).claims a = 0
          then (s.heap a).deleted + 1 else (s.heap a).deleted :=
  put_spec s i old (some { px := p }) p (Or.inr rfl) hold hinv

theorem lt_length_of_handle (s : Sys) (i : Nat) (x : IntrusivePtr_t)
    (h : s.handle i = some x) : i < s.handles.length := by
  have := handles_of_handle s i x h
  by_contra hlt
  rw [List.getElem?_eq_none (by omega)] at this
  exact absurd this (by simp)

/-- The member `swap` changes no counter, deletes nothing and keeps the number of
handles of every object. -/
theorem swap_spec (s : Sys) (i j : Nat) (self rhs : IntrusivePtr_t)
    (hi : s.handle i = some self) (hj : s.handle j = some rhs) (a : Nat) :
    ((s.handles.set i (some (self.swap rhs).1)).set j (some (self.swap rhs).2)).countP
      (Sys.pointsTo a) = s.claims a := by
  have h1 := countP_set_add (Sys.pointsTo a) s.handles i (some self)
    (some (self.swap rhs).1) (handles_of_handle s i self hi)
  have hmid : ∃ y, (s.handles.set i (some (self.swap rhs).1))[j]? = some y ∧
      ((Sys.pointsTo a y = true) ↔ rhs.px = some a) := by
    by_cases hij : i = j
    · subst hij
      refine ⟨some (self.swap rhs).1, ?_, ?_⟩
      · rw [List.getElem?_set_self (lt_length_of_handle s i self hi)]
      · simp [pointsTo_some, IntrusivePtr_t.swap]
    · refine ⟨some rhs, ?_, pointsTo_some a rhs⟩
      rw [List.getElem?_set_ne hij]
      exact handles_of_handle s j rhs hj
  obtain ⟨y, hy1, hy2⟩ := hmid
  have h2 := countP_set_add (Sys.pointsTo a) (s.handles.set i (some (self.swap rhs).1)) j y
    (some (self.swap rhs).2) hy1
  simp only [pointsTo_some, hy2, IntrusivePtr_t.swap] at h1 h2
  simp only [IntrusivePtr_t.swap]
  unfold Sys.claims
  split at h1 <;> split at h1 <;> simp_all

/-- Every operation keeps the counting invariant, and it deletes an object whose
number of handles is within `int` exactly when that number drops from 1 to 0. -/
theorem step_spec (s t : Sys) (op : Op) (hinv : s.Inv) (hstep : s.step op = some t) :
    t.Inv ∧
    ∀ a, s.claims a ≤ INT_MAX →
      (t.heap a).deleted
        = if s.claims a = 1 ∧ t.claims a = 0 then (s.heap a).deleted + 1
          else (s.heap a).deleted := by
  cases op with
  | construct p =>
    simp only [Sys.step, Option.some.injEq] at hstep
    subst hstep
    rw [ofPtr_true]
    exact push_step s p hinv
  | copy j =>
    simp only [Sys.step] at hstep
    cases hj : s.handle j with
    | none => simp [hj] at hstep
    | some rhs =>
      simp only [hj, Option.some.injEq] at hstep
      subst hstep
      rw [copy_eq]
      exact push_step s rhs.px hinv
  | copyConv j =>
    simp only [Sys.step] at hstep
    cases hj : s.handle j with
    | none => simp [hj] at hstep
    | some rhs =>
      simp only [hj, Option.some.injEq] at hstep
      subst hstep
      rw [copyConv_eq]
      exact push_step s rhs.px hinv
  | static_pointer_cast j =>
    simp only [Sys.step] at hstep
    cases hj : s.handle j with
    | none => simp [hj] at hstep
    | some rhs =>
      simp only [hj, Option.some.injEq] at hstep
      subst hstep
      rw [static_pointer_cast_eq]
      exact push_step s rhs.px hinv
  | const_pointer_cast j =>
    simp only [Sys.step] at hstep
    cases hj : s.handle j with
    | none => simp [hj] at hstep
    | some rhs =>
      simp only [hj, Option.some.injEq] at hstep
      subst hstep
      rw [const_pointer_cast_eq]
      exact push_step s rhs.px hinv
  | assign i j =>
    simp only [Sys.step] at hstep
    cases hi : s.handle i with
    | none => simp [hi] at hstep
    | some self =>
      cases hj : s.handle j with
      | none => simp [hi, hj] at hstep
      | some rhs =>
        simp only [hi, hj, Option.some.injEq] at hstep
        subst hstep
        rw [assign_eq]
        exact put_step s i self rhs.px hi hinv
  | assignConv i j =>
    simp only [Sys.step] at hstep
    cases hi : s.handle i with
    | none => simp [hi] at hstep
    | some self =>
      cases hj : s.handle j with
      | none => simp [hi, hj] at hstep
      | some rhs =>
        simp only [hi, hj, Option.some.injEq] at hstep
        subst hstep
        rw [assignConv_eq]
        exact put_step s i self rhs.px hi hinv
  | assignPtr i p =>
    simp only [Sys.step] at hstep
    cases hi : s.handle i with
    | none => simp [hi] at hstep
    | some self =>
      simp only [hi, Option.some.injEq] at hstep
      subst hstep
      rw [assignPtr_eq]
      exact put_step s i self p hi hinv
  | resetPtr i p =>
    simp only [Sys.step] at hstep
    cases hi : s.handle i with
    | none => simp [hi] at hstep
    | some self =>
      simp only [hi, Option.some.injEq] at hstep
      subst hstep
      rw [resetPtr_eq]
      exact put_step s i self p hi hinv
  | reset i =>
    simp only [Sys.step] at hstep
    cases hi : s.handle i with
    | none => simp [hi] at hstep
    | some self =>
      simp only [hi, Option.some.injEq] at hstep
      subst hstep
      rw [reset_eq]
      exact put_step s i self none hi hinv
  | destroy i =>
    simp only [Sys.step] at hstep
    cases hi : s.handle i with
    | none => simp [hi] at hstep
    | some self =>
      simp only [hi, Option.some.injEq] at hstep
      subst hstep
      rw [destroy_eq]
      exact put_spec s i self none none (Or.inl ⟨rfl, rfl⟩) hi hinv
  | swap i j =>
    simp only [Sys.step] at hstep
    cases hi : s.handle i with
    | none => simp [hi] at hstep
    | some self =>
      cases hj : s.handle j with
      | none => simp [hi, hj] at hstep
      | some rhs =>
        simp only [hi, hj, Option.some.injEq] at hstep
        subst hstep
        have hsw := swap_spec s i j self rhs hi hj
        refine ⟨?_, ?_⟩
        · intro a
          show (s.heap a).safeRefCount = wrapInt ((List.countP _ _ : Nat) : Int)
          rw [hsw a]
          exact hinv a
        · intro a _
          show (s.heap a).deleted = if s.claims a = 1 ∧ List.countP _ _ = 0 then _ else _
          rw [hsw a, if_neg (by omega)]

/-! ## Laws of the single handle operations -/

/-- C5, as stated, fails: copying a handle whose target has count 2147483647 makes
the count -2147483648, not 2147483648. -/
theorem C5_counterexample :
    ((IntrusivePtr_t.copy { px := some 0 }
        (fun _ => { safeRefCount := 2147483647, deleted := 0 })).2 0).RefCount
      = -2147483648 ∧
    ((IntrusivePtr_t.copy { px := some 0 }
        (fun _ => { safeRefCount := 2147483647, deleted := 0 })).2 0).RefCount
      ≠ 2147483647 + 1 := by
  constructor <;> decide

/-- C5 (amended): for every non-empty handle `h` whose target has count `c` with
`c < INT_MAX`, copy-constructing a handle from `h` (by either copy constructor)
yields a handle with the same target and makes the count `c + 1`; destroying that
copy makes the count `c` again; `h` itself is an argument passed by const
reference and is not modified; and when `c ≥ 1` neither step runs `delete this`
on the object.  (`hmin` says that `c` is a value of `int`.) -/
theorem C5_copy_law (heap : Heap) (h : IntrusivePtr_t) (a : Nat) (c : Int)
    (hset : h.get = some a) (hc : (heap a).RefCount = c)
    (hmin : INT_MIN ≤ c) (hmax : c < INT_MAX) :
    (IntrusivePtr_t.copy h heap).1.get = h.get ∧
    ((IntrusivePtr_t.copy h heap).2 a).RefCount = c + 1 ∧
    (((IntrusivePtr_t.copy h heap).1.destroy (IntrusivePtr_t.copy h heap).2) a).RefCount = c ∧
    (1 ≤ c → ((IntrusivePtr_t.copy h heap).2 a).deleted = (heap a).deleted ∧
      (((IntrusivePtr_t.copy h heap).1.destroy (IntrusivePtr_t.copy h heap).2) a).deleted
        = (heap a).deleted) ∧
    IntrusivePtr_t.copyConv h heap = IntrusivePtr_t.copy h heap := by
  have hpx : h.px = some a := hset
  have hc1 : (heap a).safeRefCount = c := hc
  unfold INT_MIN at hmin
  unfold INT_MAX at hmax
  have hw : wrapInt (c + 1) = c + 1 := by unfold wrapInt; omega
  have hw2 : wrapInt (c + 1 - 1) = c := by unfold wrapInt; omega
  rw [copyConv_eq, copy_eq, destroy_eq]
  simp only [RefCount_eq, release_count, release_deleted, add_ref_count, add_ref_deleted,
    IntrusivePtr_t.get, hpx, hc1, hw, hw2, if_true, true_and, and_true]
  intro h1
  rw [if_neg (by omega)]

/-- C5 (amended) at a handle to an object with count 1. -/
theorem C5_copy_law_witness :
    (IntrusivePtr_t.copy { px := some 3 } (fun _ => { safeRefCount := 1, deleted := 0 })).1.get
      = IntrusivePtr_t.get { px := some 3 } ∧
    ((IntrusivePtr_t.copy { px := some 3 }
      (fun _ => { safeRefCount := 1, deleted := 0 })).2 3).RefCount = 1 + 1 ∧
    (((IntrusivePtr_t.copy { px := some 3 }
        (fun _ => { safeRefCount := 1, deleted := 0 })).1.destroy
      (IntrusivePtr_t.copy { px := some 3 }
        (fun _ => { safeRefCount := 1, deleted := 0 })).2) 3).RefCount = 1 ∧
    ((1 : Int) ≤ 1 → ((IntrusivePtr_t.copy { px := some 3 }
        (fun _ => { safeRefCount := 1, deleted := 0 })).2 3).deleted
        = SafeRefCount_t.deleted { safeRefCount := 1, deleted := 0 } ∧
      (((IntrusivePtr_t.copy { px := some 3 }
          (fun _ => { safeRefCount := 1, deleted := 0 })).1.destroy
        (IntrusivePtr_t.copy { px := some 3 }
          (fun _ => { safeRefCount := 1, deleted := 0 })).2) 3).deleted
        = SafeRefCount_t.deleted { safeRefCount := 1, deleted := 0 }) ∧
    IntrusivePtr_t.copyConv { px := some 3 } (fun _ => { safeRefCount := 1, deleted := 0 })
      = IntrusivePtr_t.copy { px := some 3 } (fun _ => { safeRefCount := 1, deleted := 0 }) :=
  C5_copy_law (fun _ => { safeRefCount := 1, deleted := 0 }) { px := some 3 } 3 1
    rfl rfl (by decide) (by decide)

/-- C6, as stated, fails: with `A` on the object at address 0 and `B` on the object
at address 1 whose count is 2147483647, `A = B` makes the count of `B`'s target
-2147483648, not 2147483648. -/
theorem C6_counterexample :
    ((IntrusivePtr_t.assign { px := some 0 } { px := some 1 }
        (fun x => if x = 1 then { safeRefCount := 2147483647, deleted := 0 }
          else { safeRefCount := 1, deleted := 0 })).2 1).RefCount = -2147483648 ∧
    ((IntrusivePtr_t.assign { px := some 0 } { px := some 1 }
        (fun x => if x = 1 then { safeRefCount := 2147483647, deleted := 0 }
          else { safeRefCount := 1, deleted := 0 })).2 1).RefCount ≠ 2147483647 + 1 := by
  constructor <;> decide

/-- C6 (amended): for all handles `A` and `B` with distinct non-null targets `a` and
`b` whose counts `ca > INT_MIN` and `cb < INT_MAX` lie in the range of `int`,
`A = B` (copy or converting assignment) makes the count of `a` exactly `ca - 1`,
running `delete this` on `a` exactly when `ca = 1`, makes the count of `b` exactly
`cb + 1` without deleting it, and leaves `A` with target `b`; and for every
non-empty handle `A`, `A = A` leaves the count of its target unchanged.
(`hamax`, `hbmin` and the bound of the last part say that the counts are values
of `int`.) -/
theorem C6_assignment_law (heap : Heap) (A B : IntrusivePtr_t) (a b : Nat)
    (hA : A.get = some a) (hB : B.get = some b)
    (hamax : (heap a).RefCount ≤ INT_MAX) (hbmin : INT_MIN ≤ (heap b).RefCount) :
    (a ≠ b → INT_MIN < (heap a).RefCount → (heap b).RefCount < INT_MAX →
      (A.assign B heap).1.get = some b ∧
      ((A.assign B heap).2 a).RefCount = (heap a).RefCount - 1 ∧
      ((A.assign B heap).2 a).deleted
        = (if (heap a).RefCount = 1 then (heap a).deleted + 1 else (heap a).deleted) ∧
      ((A.assign B heap).2 b).RefCount = (heap b).RefCount + 1 ∧
      ((A.assign B heap).2 b).deleted = (heap b).deleted ∧
      A.assignConv B heap = A.assign B heap) ∧
    (INT_MIN ≤ (heap a).RefCount →
      ((A.assign A heap).2 a).RefCount = (heap a).RefCount ∧
      A.assignConv A heap = A.assign A heap) := by
  have hpa : A.px = some a := hA
  have hpb : B.px = some b := hB
  unfold INT_MAX at hamax
  unfold INT_MIN at hbmin
  simp only [RefCount_eq] at hamax hbmin ⊢
  refine ⟨?_, ?_⟩
  · intro hab hamin hbmax
    unfold INT_MIN at hamin
    unfold INT_MAX at hbmax
    have hba : ¬ (some b = some a) := by
      intro e
      exact hab (Option.some.inj e).symm
    have hab1 : ¬ (some a = some b) := by
      intro e
      exact hab (Option.some.inj e)
    have hw1 : wrapInt ((heap a).safeRefCount - 1) = (heap a).safeRefCount - 1 := by
      unfold wrapInt; omega
    have hw2 : wrapInt ((heap b).safeRefCount + 1) = (heap b).safeRefCount + 1 := by
      unfold wrapInt; omega
    rw [assignConv_eq, assign_eq]
    simp only [release_count, release_deleted, add_ref_count, add_ref_deleted,
      IntrusivePtr_t.get, hpa, hpb, hba, hab1, hw1, hw2, if_true, if_false, true_and,
      and_true, false_and]
  · intro hamin
    unfold INT_MIN at hamin
    have hw : wrapInt (wrapInt ((heap a).safeRefCount + 1) - 1) = (heap a).safeRefCount := by
      unfold wrapInt; omega
    rw [assignConv_eq, assign_eq]
    simp only [release_count, add_ref_count, hpa, hw, if_true, and_true]

/-- C6 (amended) at `A` on address 0 and `B` on address 1, both objects with
count 1. -/
theorem C6_assignment_law_witness :
    ((0 : Nat) ≠ 1 ∧ INT_MIN < (1 : Int) ∧ (1 : Int) < INT_MAX) ∧
    ((IntrusivePtr_t.assign { px := some 0 } { px := some 1 }
      (fun _ => { safeRefCount := 1, deleted := 0 })).2 0).RefCount = 0 ∧
    ((IntrusivePtr_t.assign { px := some 0 } { px := some 1 }
      (fun _ => { safeRefCount := 1, deleted := 0 })).2 0).deleted = 1 ∧
    ((IntrusivePtr_t.assign { px := some 0 } { px := some 1 }
      (fun _ => { safeRefCount := 1, deleted := 0 })).2 1).RefCount = 2 ∧
    ((IntrusivePtr_t.assign { px := some 0 } { px := some 0 }
      (fun _ => { safeRefCount := 1, deleted := 0 })).2 0).RefCount = 1 := by
  have h := C6_assignment_law (fun _ => { safeRefCount := 1, deleted := 0 })
    { px := some 0 } { px := some 1 } 0 1 rfl rfl (by decide) (by decide)
  have h1 := h.1 (by decide) (by decide) (by decide)
  have h2 := h.2 (by decide)
  exact ⟨⟨by decide, by decide, by decide⟩, h1.2.1, h1.2.2.1, h1.2.2.2.1, h2.1⟩

/-- C8, as stated, fails: `IntrusivePtr_t(p, true)` on an object whose count is
2147483647 makes the count -2147483648, not 2147483648. -/
theorem C8_counterexample :
    ((IntrusivePtr_t.ofPtr (some 0) true
        (fun _ => { safeRefCount := 2147483647, deleted := 0 })).2 0).RefCount
      = -2147483648 ∧
    ((IntrusivePtr_t.ofPtr (some 0) true
        (fun _ => { safeRefCount := 2147483647, deleted := 0 })).2 0).RefCount
      ≠ 2147483647 + 1 := by
  constructor <;> decide

/-- C8 (amended): for every non-null raw pointer `p` to an object with count `c`,
`IntrusivePtr_t(p, true)`, which is also `IntrusivePtr_t(p)`, yields a handle with
`get() == p` and, provided `c < INT_MAX`, makes the count `c + 1`, while
`IntrusivePtr_t(p, false)` yields a handle with `get() == p` and leaves the whole
heap, hence the count, unchanged.  (`hmin` says that `c` is a value of `int`.) -/
theorem C8_construct_from_raw (heap : Heap) (a : Nat) (c : Int)
    (hc : (heap a).RefCount = c) (hmin : INT_MIN ≤ c) :
    (IntrusivePtr_t.ofPtr (some a) true heap).1.get = some a ∧
    (c < INT_MAX → ((IntrusivePtr_t.ofPtr (some a) true heap).2 a).RefCount = c + 1) ∧
    (IntrusivePtr_t.ofPtr (some a) false heap).1.get = some a ∧
    (IntrusivePtr_t.ofPtr (some a) false heap).2 = heap ∧
    ((IntrusivePtr_t.ofPtr (some a) false heap).2 a).RefCount = c := by
  have hc1 : (heap a).safeRefCount = c := hc
  unfold INT_MIN at hmin
  rw [ofPtr_true, ofPtr_false]
  refine ⟨rfl, ?_, rfl, rfl, hc⟩
  intro hmax
  unfold INT_MAX at hmax
  have hw : wrapInt (c + 1) = c + 1 := by unfold wrapInt; omega
  simp only [RefCount_eq, add_ref_count, hc1, hw, if_true]

/-- C8 (amended) at a fresh object at address 4. -/
theorem C8_construct_from_raw_witness :
    (IntrusivePtr_t.ofPtr (some 4) true (fun _ => SafeRefCount_t.new)).1.get = some 4 ∧
    ((0 : Int) < INT_MAX →
      ((IntrusivePtr_t.ofPtr (some 4) true (fun _ => SafeRefCount_t.new)).2 4).RefCount
        = 0 + 1) ∧
    (IntrusivePtr_t.ofPtr (some 4) false (fun _ => SafeRefCount_t.new)).1.get = some 4 ∧
    (IntrusivePtr_t.ofPtr (some 4) false (fun _ => SafeRefCount_t.new)).2
      = (fun _ => SafeRefCount_t.new) ∧
    ((IntrusivePtr_t.ofPtr (some 4) false (fun _ => SafeRefCount_t.new)).2 4).RefCount = 0 :=
  C8_construct_from_raw (fun _ => SafeRefCount_t.new) 4 0 rfl (by decide)

/-- C9, as stated, fails twice: a cast of a handle whose target has count
2147483647 makes the count -2147483648, not 2147483648; and when the source handle
adopted a fresh object without claiming it (count 0), destroying the cast result
alone runs `delete this` on the object the source handle still has as target. -/
theorem C9_counterexample :
    (((static_pointer_cast { px := some 0 }
        (fun _ => { safeRefCount := 2147483647, deleted := 0 })).2 0).RefCount
      = -2147483648 ∧
     ((const_pointer_cast { px := some 0 }
        (fun _ => { safeRefCount := 2147483647, deleted := 0 })).2 0).RefCount
      = -2147483648) ∧
    ((IntrusivePtr_t.ofPtr (some 0) false (fun _ => SafeRefCount_t.new)).1.is_set = true ∧
     (((static_pointer_cast
          (IntrusivePtr_t.ofPtr (some 0) false (fun _ => SafeRefCount_t.new)).1
          (fun _ => SafeRefCount_t.new)).1.destroy
        (static_pointer_cast
          (IntrusivePtr_t.ofPtr (some 0) false (fun _ => SafeRefCount_t.new)).1
          (fun _ => SafeRefCount_t.new)).2) 0).deleted = 1) := by
  refine ⟨⟨?_, ?_⟩, ?_, ?_⟩ <;> decide

/-- C9 (amended): for every non-empty handle `p` whose target has count `c` with
`c < INT_MAX`, `static_pointer_cast` and `const_pointer_cast` each return a handle
over the same raw pointer as `p.get()` and make the count `c + 1`; and when
moreover `c ≠ 0` (as when `p` holds a claim, `c ≥ 1`), destroying afterwards either
the source or the cast result alone does not run `delete this` on the object and
leaves the count at `c`, the claim of the other handle.  (`hmin` says that `c` is a
value of `int`.) -/
theorem C9_pointer_casts (heap : Heap) (p : IntrusivePtr_t) (a : Nat) (c : Int)
    (hset : p.get = some a) (hc : (heap a).RefCount = c)
    (hmin : INT_MIN ≤ c) (hmax : c < INT_MAX) :
    ((static_pointer_cast p heap).1.get = p.get ∧
      ((static_pointer_cast p heap).2 a).RefCount = c + 1 ∧
      ((static_pointer_cast p heap).2 a).deleted = (heap a).deleted ∧
      const_pointer_cast p heap = static_pointer_cast p heap) ∧
    (c ≠ 0 →
      ((p.destroy (static_pointer_cast p heap).2) a).RefCount = c ∧
      ((p.destroy (static_pointer_cast p heap).2) a).deleted = (heap a).deleted ∧
      (((static_pointer_cast p heap).1.destroy (static_pointer_cast p heap).2) a).RefCount
        = c ∧
      (((static_pointer_cast p heap).1.destroy (static_pointer_cast p heap).2) a).deleted
        = (heap a).deleted) := by
  have hpx : p.px = some a := hset
  have hc1 : (heap a).safeRefCount = c := hc
  unfold INT_MIN at hmin
  unfold INT_MAX at hmax
  have hw : wrapInt (c + 1) = c + 1 := by unfold wrapInt; omega
  have hw2 : wrapInt (c + 1 - 1) = c := by unfold wrapInt; omega
  rw [const_pointer_cast_eq, static_pointer_cast_eq]
  simp only [destroy_eq, RefCount_eq, release_count, release_deleted, add_ref_count, add_ref_deleted,
    IntrusivePtr_t.get, hpx, hc1, hw, hw2, if_true, true_and, and_true, and_self]
  intro h0
  rw [if_neg (by omega)]

/-- C9 (amended) at a handle to an object with count 1. -/
theorem C9_pointer_casts_witness :
    ((static_pointer_cast { px := some 2 }
        (fun _ => { safeRefCount := 1, deleted := 0 })).2 2).RefCount = 1 + 1 ∧
    (((static_pointer_cast { px := some 2 }
          (fun _ => { safeRefCount := 1, deleted := 0 })).1.destroy
        (static_pointer_cast { px := some 2 }
          (fun _ => { safeRefCount := 1, deleted := 0 })).2) 2).deleted = 0 ∧
    ((IntrusivePtr_t.destroy { px := some 2 }
        (static_pointer_cast { px := some 2 }
          (fun _ => { safeRefCount := 1, deleted := 0 })).2) 2).deleted = 0 := by
  have h := C9_pointer_casts (fun _ => { safeRefCount := 1, deleted := 0 })
    { px := some 2 } 2 1 rfl rfl (by decide) (by decide)
  have h2 := h.2 (by decide)
  exact ⟨h.1.2.1, h2.2.2.2, h2.2.1⟩

/-! ## Several handles built from one raw pointer -/

theorem constructN_handles (p : Ptr) (k : Nat) (h : Heap) :
    (constructN p k h).1 = List.replicate k { px := p } := by
  induction k with
  | zero => rfl
  | succ k ih =>
    simp only [constructN, ofPtr_true, List.replicate_succ]
    rw [ih]

theorem constructN_object (a k : Nat) (h : Heap) :
    (constructN (some a) k h).2 a
      = (h a).calls (List.replicate k Call.AddReference) := by
  induction k with
  | zero => rfl
  | succ k ih =>
    have e : List.replicate (k + 1) Call.AddReference
        = List.replicate k Call.AddReference ++ [Call.AddReference] := by
      rw [← List.replicate_one, List.append_replicate_replicate]
    rw [e, calls_append, calls_singleton, ← ih]
    simp only [constructN, ofPtr_true, IntrusivePtr_t_add_ref, Function.update_same]
    rfl

theorem destroyAll_cons (x : IntrusivePtr_t) (xs : List IntrusivePtr_t) (h : Heap) :
    destroyAll (x :: xs) h = destroyAll xs (x.destroy h) := rfl

theorem destroyAll_object (a j : Nat) (h : Heap) :
    destroyAll (List.replicate j { px := some a }) h a
      = (h a).calls (List.replicate j Call.RemoveReference) := by
  induction j generalizing h with
  | zero => rfl
  | succ j ih =>
    rw [List.replicate_succ, List.replicate_succ, destroyAll_cons, calls_cons, ih, destroy_eq]
    simp only [IntrusivePtr_t_release, Function.update_same]
    rfl

theorem calls_adds_fresh (k : Nat) (hk : (k : Int) ≤ INT_MAX) :
    (SafeRefCount_t.new.calls (List.replicate k Call.AddReference)).safeRefCount = k ∧
    (SafeRefCount_t.new.calls (List.replicate k Call.AddReference)).deleted = 0 := by
  refine ⟨?_, calls_replicate_add_deleted k SafeRefCount_t.new⟩
  rw [calls_count _ _ (by decide) (by decide), unmatched_replicate_add]
  have h0 : SafeRefCount_t.new.safeRefCount = 0 := rfl
  rw [h0, zero_add]
  apply wrapInt_of_range _ _ hk
  unfold INT_MIN
  omega

/-- After `k` claims, `j ≤ k` releases leave the count `k - j`, and `delete this`
has run, once, exactly when `j = k > 0`. -/
theorem calls_removes (o : SafeRefCount_t) (k j : Nat) (hk : (k : Int) ≤ INT_MAX)
    (hc : o.safeRefCount = k) (hj : j ≤ k) :
    (o.calls (List.replicate j Call.RemoveReference)).safeRefCount = (k : Int) - (j : Int) ∧
    (o.calls (List.replicate j Call.RemoveReference)).deleted
      = if j = k ∧ 0 < k then o.deleted + 1 else o.deleted := by
  have hk1 := hk
  unfold INT_MAX at hk1
  constructor
  · rw [calls_count _ _ (by rw [hc]; unfold INT_MIN; omega) (by rw [hc]; exact hk),
      unmatched_replicate_remove, hc]
    apply wrapInt_of_range
    · unfold INT_MIN; omega
    · unfold INT_MAX; omega
  · have hu : ∀ i, unmatched ((List.replicate j Call.RemoveReference).take i)
        = -((min i j : Nat) : Int) := by
      intro i
      rw [List.take_replicate, unmatched_replicate_remove]
    obtain ⟨_, h2⟩ := calls_alive_until_end (List.replicate j Call.RemoveReference) o
      (by intro i hi
          rw [List.length_replicate] at hi
          rw [hu, hc]; omega)
      (by intro i _
          rw [hu, hc]; unfold INT_MAX; omega)
    rw [h2, unmatched_replicate_remove, hc]
    by_cases hjk : j = k ∧ 0 < k
    · rw [if_pos hjk, if_pos]
      refine ⟨?_, by omega⟩
      intro e
      have := congrArg List.length e
      rw [List.length_replicate, List.length_nil] at this
      omega
    · rw [if_neg hjk, if_neg]
      intro ⟨h3, h4⟩
      apply hjk
      refine ⟨by omega, ?_⟩
      by_contra h5
      have hj0 : j = 0 := by omega
      subst hj0
      exact h3 rfl

theorem sublist_replicate {α : Type} (x : α) (k : Nat) (ds : List α)
    (h : ds.Sublist (List.replicate k x)) :
    ds = List.replicate ds.length x ∧ ds.length ≤ k := by
  refine ⟨?_, ?_⟩
  · apply List.eq_replicate_of_mem
    intro y hy
    exact List.eq_of_mem_replicate (h.subset hy)
  · have := h.length_le
    rwa [List.length_replicate] at this

/-- C7, as stated, fails: 2147483648 handles built independently from the raw
pointer to a fresh object leave its count at -2147483648, not at 2147483648. -/
theorem C7_counterexample :
    (constructN (some 0) 2147483648 (Heap.alloc (fun _ => SafeRefCount_t.new) 0)).1.length
      = 2147483648 ∧
    ((constructN (some 0) 2147483648
      (Heap.alloc (fun _ => SafeRefCount_t.new) 0)).2 0).RefCount = -2147483648 := by
  constructor
  · rw [constructN_handles, List.length_replicate]
  · rw [RefCount_eq, constructN_object]
    have h0 : Heap.alloc (fun _ => SafeRefCount_t.new) 0 0 = SafeRefCount_t.new := rfl
    rw [h0, calls_count _ _ (by decide) (by decide), unmatched_replicate_add]
    decide

/-- C7 (amended): for every fresh object at address `a` and every `k ≤ INT_MAX`,
building `k` handles independently from the raw pointer to it gives `k` handles
whose `get()` is that pointer and one count `k` in the object they all point to,
which is not deleted; destroying any `j` of them leaves the count at `k - j`, and
`delete this` has run (once) exactly when all `k` of them, `k > 0`, have been
destroyed. -/
theorem C7_shared_count (heap : Heap) (a k : Nat) (hk : (k : Int) ≤ INT_MAX) :
    (constructN (some a) k (heap.alloc a)).1.length = k ∧
    (∀ x, x ∈ (constructN (some a) k (heap.alloc a)).1 → x.get = some a) ∧
    ((constructN (some a) k (heap.alloc a)).2 a).RefCount = k ∧
    ((constructN (some a) k (heap.alloc a)).2 a).deleted = 0 ∧
    (∀ ds : List IntrusivePtr_t, ds.Sublist (constructN (some a) k (heap.alloc a)).1 →
      ((destroyAll ds (constructN (some a) k (heap.alloc a)).2) a).RefCount
        = (k : Int) - (ds.length : Int) ∧
      ((destroyAll ds (constructN (some a) k (heap.alloc a)).2) a).deleted
        = if ds.length = k ∧ 0 < k then 1 else 0) := by
  have hfresh : heap.alloc a a = SafeRefCount_t.new := by
    simp [Heap.alloc]
  obtain ⟨hc, hd⟩ := calls_adds_fresh k hk
  have hobj := constructN_object a k (heap.alloc a)
  rw [hfresh] at hobj
  refine ⟨?_, ?_, ?_, ?_, ?_⟩
  · rw [constructN_handles, List.length_replicate]
  · intro x hx
    rw [constructN_handles] at hx
    rw [List.eq_of_mem_replicate hx]
    rfl
  · rw [RefCount_eq, hobj, hc]
  · rw [hobj, hd]
  · intro ds hds
    rw [constructN_handles] at hds
    obtain ⟨hrep, hlen⟩ := sublist_replicate _ k ds hds
    rw [hrep, destroyAll_object, RefCount_eq, List.length_replicate, hobj]
    obtain ⟨h1, h2⟩ := calls_removes _ k ds.length hk hc hlen
    rw [h1, h2, hd]
    exact ⟨rfl, rfl⟩

/-- C7 (amended) at three handles to a fresh object at address 5. -/
theorem C7_shared_count_witness :
    ((constructN (some 5) 3 (Heap.alloc (fun _ => SafeRefCount_t.new) 5)).2 5).RefCount
      = ((3 : Nat) : Int) ∧
    ((destroyAll [{ px := some 5 }, { px := some 5 }]
      (constructN (some 5) 3 (Heap.alloc (fun _ => SafeRefCount_t.new) 5)).2) 5).deleted = 0 ∧
    ((destroyAll [{ px := some 5 }, { px := some 5 }, { px := some 5 }]
      (constructN (some 5) 3 (Heap.alloc (fun _ => SafeRefCount_t.new) 5)).2) 5).deleted = 1 := by
  have h := C7_shared_count (fun _ => SafeRefCount_t.new) 5 3 (by decide)
  have h2 := h.2.2.2.2 [{ px := some 5 }, { px := some 5 }] (by decide)
  have h3 := h.2.2.2.2 [{ px := some 5 }, { px := some 5 }, { px := some 5 }] (by decide)
  exact ⟨h.2.2.1, h2.2, h3.2⟩

/-! ## Comparison of handles -/

/-- C10: for all handles `a`, `b` and every raw pointer `r`, `a == b` holds iff
`a.get()` and `b.get()` are the same raw pointer, `a == r` and `r == a` hold iff
`a.get()` is `r`, and each `!=` is the negation of the matching `==`; so two handles
over the same object compare equal, and two handles over distinct objects compare
unequal whatever the values `val` stored in the objects, also when these values are
equal. -/
theorem C10_equality_is_identity (a b : IntrusivePtr_t) (r : Ptr) :
    (operator_eq a b = true ↔ a.get = b.get) ∧
    (operator_eq_ptr a r = true ↔ a.get = r) ∧
    (ptr_operator_eq r a = true ↔ a.get = r) ∧
    operator_ne a b = !(operator_eq a b) ∧
    operator_ne_ptr a r = !(operator_eq_ptr a r) ∧
    ptr_operator_ne r a = !(ptr_operator_eq r a) ∧
    (∀ x : Nat, a.get = some x → b.get = some x →
      operator_eq a b = true ∧ operator_ne a b = false) ∧
    (∀ (V : Type) (val : Nat → V) (x y : Nat), a.get = some x → b.get = some y →
      x ≠ y → val x = val y → operator_eq a b = false ∧ operator_ne a b = true) := by
  refine ⟨?_, ?_, ?_, ?_, ?_, ?_, ?_, ?_⟩
  · simp [operator_eq]
  · simp [operator_eq_ptr]
  · simp only [ptr_operator_eq, beq_iff_eq]
    exact eq_comm
  · simp [operator_ne, operator_eq, bne]
  · simp [operator_ne_ptr, operator_eq_ptr, bne]
  · simp [ptr_operator_ne, ptr_operator_eq, bne]
  · intro x hx hy
    simp [operator_eq, operator_ne, hx, hy]
  · intro V val x y hx hy hxy _
    simp [operator_eq, operator_ne, hx, hy, hxy]

/-! ## The ordering operator -/

theorem is_set_iff (a : IntrusivePtr_t) : a.is_set = true ↔ a.px ≠ none := by
  cases a with
  | mk p => cases p <;> simp [IntrusivePtr_t.is_set]

theorem operator_gt_of_get {V : Type} (gt : V → V → Bool) (val : Nat → V)
    (a b : IntrusivePtr_t) (x y : Nat) (ha : a.get = some x) (hb : b.get = some y) :
    operator_gt gt val a b = gt (val x) (val y) := by
  have hpa : a.px = some x := ha
  have hpb : b.px = some y := hb
  have h1 : a.is_set = true := (is_set_iff a).mpr (by rw [hpa]; simp)
  have h2 : b.is_set = true := (is_set_iff b).mpr (by rw [hpb]; simp)
  simp [operator_gt, h1, h2, IntrusivePtr_t.deref, hpa, hpb]

/-- C11: for all handles `a` and `b` of one type, whose pointed-to values are given
by `val` and compared by the operator `gt` of that type, `a > b` is false whenever
`a` or `b` is empty; when both are non-empty it is exactly `gt` applied to the two
pointed-to values; and it depends on the values only: handles with other targets
holding the same values compare the same way. -/
theorem C11_ordering_policy {V : Type} (gt : V → V → Bool) (val : Nat → V)
    (a b : IntrusivePtr_t) :
    ((a.is_set = false ∨ b.is_set = false) → operator_gt gt val a b = false) ∧
    (∀ x y : Nat, a.get = some x → b.get = some y →
      a.is_set = true ∧ b.is_set = true ∧
      a.deref val = some (val x) ∧ b.deref val = some (val y) ∧
      operator_gt gt val a b = gt (val x) (val y)) ∧
    (∀ (c d : IntrusivePtr_t) (x y u v : Nat), a.get = some x → b.get = some y →
      c.get = some u → d.get = some v → val x = val u → val y = val v →
      operator_gt gt val a b = operator_gt gt val c d) := by
  refine ⟨?_, ?_, ?_⟩
  · intro h
    unfold operator_gt
    rw [if_neg]
    intro ⟨h1, h2⟩
    rcases h with h | h
    · rw [h1] at h; exact absurd h (by decide)
    · rw [h2] at h; exact absurd h (by decide)
  · intro x y ha hb
    have hpa : a.px = some x := ha
    have hpb : b.px = some y := hb
    refine ⟨(is_set_iff a).mpr (by rw [hpa]; simp), (is_set_iff b).mpr (by rw [hpb]; simp),
      by simp [IntrusivePtr_t.deref, hpa], by simp [IntrusivePtr_t.deref, hpb],
      operator_gt_of_get gt val a b x y ha hb⟩
  · intro c d x y u v ha hb hc hd hxu hyv
    rw [operator_gt_of_get gt val a b x y ha hb, operator_gt_of_get gt val c d u v hc hd,
      hxu, hyv]

/-! ## The observers -/

/-- C14: for every handle `h`, each of any number `n` of consecutive `get()` calls
returns the same raw pointer, the member `px` (null for an empty handle);
`get_pointer(h)` returns the same value as `h.get()`; and `is_set()` is true iff
`get()` is non-null.  `get` is a function of the handle alone: it receives no heap
and returns neither a handle nor a heap, so it changes no target and no count. -/
theorem C14_get_pure_observer (h : IntrusivePtr_t) (n : Nat) :
    (∀ r, r ∈ List.replicate n h.get → r = h.px) ∧
    (h.is_set = false → h.get = none) ∧
    IntrusivePtr_t.empty.get = none ∧
    get_pointer h = h.get ∧
    (h.is_set = true ↔ h.get ≠ none) := by
  refine ⟨?_, ?_, rfl, rfl, is_set_iff h⟩
  · intro r hr
    exact List.eq_of_mem_replicate hr
  · intro hs
    by_contra hne
    have := (is_set_iff h).mpr hne
    rw [hs] at this
    exact absurd this (by decide)

/-! ## `AddReference` and `RemoveReference` on one counter value -/

/-- C17, as stated, fails at the two ends of `int`: `RemoveReference` on the count
-2147483648 leaves 2147483647, not -2147483649, and `AddReference` on the count
2147483647 leaves -2147483648, not 2147483648. -/
theorem C17_counterexample :
    (SafeRefCount_t.RemoveReference { safeRefCount := -2147483648, deleted := 0 }).RefCount
      = 2147483647 ∧
    (SafeRefCount_t.RemoveReference { safeRefCount := -2147483648, deleted := 0 }).RefCount
      ≠ -2147483648 - 1 ∧
    (SafeRefCount_t.AddReference { safeRefCount := 2147483647, deleted := 0 }).RefCount
      = -2147483648 ∧
    (SafeRefCount_t.AddReference { safeRefCount := 2147483647, deleted := 0 }).RefCount
      ≠ 2147483647 + 1 := by
  refine ⟨?_, ?_, ?_, ?_⟩ <;> decide

/-- C17 (amended): for every value `c` of the counter, `RemoveReference` runs
`delete this`, once, if and only if `c = 1`, and changes the count from `c` to
`c - 1` provided `c > INT_MIN`; on a fresh object it leaves the count at -1 and does
not delete; `AddReference` never deletes, and changes the count from `c` to `c + 1`
provided `c < INT_MAX`.  (`hmin` and `hmax` say that `c` is a value of `int`.) -/
theorem C17_remove_destroys_iff_one (o : SafeRefCount_t) (c : Int)
    (hc : o.RefCount = c) (hmin : INT_MIN ≤ c) (hmax : c ≤ INT_MAX) :
    (INT_MIN < c → o.RemoveReference.RefCount = c - 1) ∧
    (o.RemoveReference.deleted = if c = 1 then o.deleted + 1 else o.deleted) ∧
    (o.RemoveReference.deleted ≠ o.deleted ↔ c = 1) ∧
    (SafeRefCount_t.new.RemoveReference.RefCount = -1 ∧
      SafeRefCount_t.new.RemoveReference.deleted = 0) ∧
    o.AddReference.deleted = o.deleted ∧
    (c < INT_MAX → o.AddReference.RefCount = c + 1) := by
  have hc1 : o.safeRefCount = c := hc
  unfold INT_MIN at hmin
  unfold INT_MAX at hmax
  refine ⟨?_, ?_, ?_, ⟨by decide, by decide⟩, rfl, ?_⟩
  · intro h
    unfold INT_MIN at h
    rw [RefCount_eq, RemoveReference_count, hc1]
    unfold wrapInt; omega
  · rw [RemoveReference_deleted, hc1]
  · rw [RemoveReference_deleted, hc1]
    by_cases h1 : c = 1
    · simp [h1]
    · simp [h1]
  · intro h
    unfold INT_MAX at h
    rw [RefCount_eq]
    show wrapInt (o.safeRefCount + 1) = c + 1
    rw [hc1]
    unfold wrapInt; omega

/-- C17 (amended) at an object with count 1. -/
theorem C17_remove_destroys_iff_one_witness :
    (SafeRefCount_t.RemoveReference { safeRefCount := 1, deleted := 0 }).RefCount = 1 - 1 ∧
    (SafeRefCount_t.RemoveReference { safeRefCount := 1, deleted := 0 }).deleted
      = (if (1 : Int) = 1 then 0 + 1 else 0) ∧
    (SafeRefCount_t.AddReference { safeRefCount := 1, deleted := 0 }).RefCount = 1 + 1 := by
  have h := C17_remove_destroys_iff_one { safeRefCount := 1, deleted := 0 } 1 rfl
    (by decide) (by decide)
  exact ⟨h.1 (by decide), h.2.1, h.2.2.2.2.2 (by decide)⟩

/-! ## The logged operations -/

theorem traced_add_ref_eq (p : Ptr) (t : Traced) :
    Traced.IntrusivePtr_t_add_ref p t
      = { heap := IntrusivePtr_t_add_ref p t.heap, log := t.log ++ addCalls p } := by
  cases p with
  | none => simp [Traced.IntrusivePtr_t_add_ref, IntrusivePtr_t_add_ref, addCalls]
  | some a => rfl

theorem traced_release_eq (p : Ptr) (t : Traced) :
    Traced.IntrusivePtr_t_release p t
      = { heap := IntrusivePtr_t_release p t.heap, log := t.log ++ removeCalls p } := by
  cases p with
  | none => simp [Traced.IntrusivePtr_t_release, IntrusivePtr_t_release, removeCalls]
  | some a => rfl

theorem traced_ofPtr_true (p : Ptr) (t : Traced) :
    Traced.ofPtr p true t
      = ({ px := p },
         { heap := IntrusivePtr_t_add_ref p t.heap, log := t.log ++ addCalls p }) := by
  cases p with
  | none => simp [Traced.ofPtr, IntrusivePtr_t_add_ref, addCalls]
  | some a => simp [Traced.ofPtr, traced_add_ref_eq]

theorem traced_ofPtr_false (p : Ptr) (t : Traced) :
    Traced.ofPtr p false t = ({ px := p }, t) := by
  simp [Traced.ofPtr]

theorem traced_copy_eq (rhs : IntrusivePtr_t) (t : Traced) :
    Traced.copy rhs t
      = ({ px := rhs.px },
         { heap := IntrusivePtr_t_add_ref rhs.px t.heap, log := t.log ++ addCalls rhs.px }) := by
  cases rhs with
  | mk p =>
    cases p with
    | none => simp [Traced.copy, IntrusivePtr_t_add_ref, addCalls]
    | some a => simp [Traced.copy, traced_add_ref_eq]

theorem traced_copyConv_eq (rhs : IntrusivePtr_t) (t : Traced) :
    Traced.copyConv rhs t
      = ({ px := rhs.px },
         { heap := IntrusivePtr_t_add_ref rhs.px t.heap, log := t.log ++ addCalls rhs.px }) := by
  cases rhs with
  | mk p =>
    cases p with
    | none => simp [Traced.copyConv, IntrusivePtr_t.get, IntrusivePtr_t_add_ref, addCalls]
    | some a => simp [Traced.copyConv, IntrusivePtr_t.get, traced_add_ref_eq]

theorem traced_destroy_eq (self : IntrusivePtr_t) (t : Traced) :
    Traced.destroy self t
      = { heap := IntrusivePtr_t_release self.px t.heap,
          log := t.log ++ removeCalls self.px } := by
  cases self with
  | mk p =>
    cases p with
    | none => simp [Traced.destroy, IntrusivePtr_t_release, removeCalls]
    | some a => simp [Traced.destroy, traced_release_eq]

theorem traced_assign_eq (self rhs : IntrusivePtr_t) (t : Traced) :
    Traced.assign self rhs t
      = ({ px := rhs.px },
         { heap := IntrusivePtr_t_release self.px (IntrusivePtr_t_add_ref rhs.px t.heap),
           log := t.log ++ addCalls rhs.px ++ removeCalls self.px }) := by
  simp [Traced.assign, traced_copy_eq, IntrusivePtr_t.swap, traced_destroy_eq]

theorem traced_assignConv_eq (self rhs : IntrusivePtr_t) (t : Traced) :
    Traced.assignConv self rhs t
      = ({ px := rhs.px },
         { heap := IntrusivePtr_t_release self.px (IntrusivePtr_t_add_ref rhs.px t.heap),
           log := t.log ++ addCalls rhs.px ++ removeCalls self.px }) := by
  simp [Traced.assignConv, traced_copyConv_eq, IntrusivePtr_t.swap, traced_destroy_eq]

theorem traced_assignPtr_eq (self : IntrusivePtr_t) (p : Ptr) (t : Traced) :
    Traced.assignPtr self p t
      = ({ px := p },
         { heap := IntrusivePtr_t_release self.px (IntrusivePtr_t_add_ref p t.heap),
           log := t.log ++ addCalls p ++ removeCalls self.px }) := by
  simp [Traced.assignPtr, traced_ofPtr_true, IntrusivePtr_t.swap, traced_destroy_eq]

theorem traced_resetPtr_eq (self : IntrusivePtr_t) (p : Ptr) (t : Traced) :
    Traced.resetPtr self p t
      = ({ px := p },
         { heap := IntrusivePtr_t_release self.px (IntrusivePtr_t_add_ref p t.heap),
           log := t.log ++ addCalls p ++ removeCalls self.px }) := by
  simp [Traced.resetPtr, traced_ofPtr_true, IntrusivePtr_t.swap, traced_destroy_eq]

theorem traced_reset_eq (self : IntrusivePtr_t) (t : Traced) :
    Traced.reset self t
      = ({ px := none },
         { heap := IntrusivePtr_t_release self.px t.heap,
           log := t.log ++ removeCalls self.px }) := by
  simp [Traced.reset, IntrusivePtr_t.empty, IntrusivePtr_t.swap, traced_destroy_eq]

theorem applyCalls_addCalls (p : Ptr) (h : Heap) :
    applyCalls (addCalls p) h = IntrusivePtr_t_add_ref p h := by
  cases p <;> rfl

theorem applyCalls_removeCalls (p : Ptr) (h : Heap) :
    applyCalls (removeCalls p) h = IntrusivePtr_t_release p h := by
  cases p <;> rfl

theorem applyCalls_append (l1 l2 : List CallOn) (h : Heap) :
    applyCalls (l1 ++ l2) h = applyCalls l2 (applyCalls l1 h) := by
  simp [applyCalls, List.foldl_append]

/-! ## The order of the calls in an assignment -/

theorem addCalls_some (a : Nat) :
    addCalls (some a) = [{ call := Call.AddReference, addr := a }] := rfl

theorem removeCalls_some (a : Nat) :
    removeCalls (some a) = [{ call := Call.RemoveReference, addr := a }] := rfl

theorem assign_heap_eq_applyCalls (old new : Ptr) (h : Heap) :
    IntrusivePtr_t_release old (IntrusivePtr_t_add_ref new h)
      = applyCalls (addCalls new ++ removeCalls old) h := by
  rw [applyCalls_append, applyCalls_addCalls, applyCalls_removeCalls]

/-- C16: in each of the three `operator=` forms and in `reset(p)`, the calls made
are, in this order, the `AddReference` on the new target (if non-null) and then one
`RemoveReference` on the previous target of the handle (if non-null), and the heap
they leave is the heap of the operation; hence, for every handle `A` whose target
`a` has count 1, the assignments `A = A`, `A = B` for any handle `B` with the same
target, and `A = A.get()` make exactly the calls `AddReference`, `RemoveReference`
on `a`: the count is 2 after the first and 1 after the second, never 0, and
`delete this` does not run. -/
theorem C16_claim_before_release (A B : IntrusivePtr_t) (p : Ptr) (t : Traced) :
    ((Traced.assign A B t).2.log = t.log ++ addCalls B.get ++ removeCalls A.get ∧
      (Traced.assignConv A B t).2.log = t.log ++ addCalls B.get ++ removeCalls A.get ∧
      (Traced.assignPtr A p t).2.log = t.log ++ addCalls p ++ removeCalls A.get ∧
      (Traced.resetPtr A p t).2.log = t.log ++ addCalls p ++ removeCalls A.get) ∧
    (((Traced.assign A B t).2.heap = (A.assign B t.heap).2 ∧
        (A.assign B t.heap).2 = applyCalls (addCalls B.get ++ removeCalls A.get) t.heap) ∧
      ((Traced.assignConv A B t).2.heap = (A.assignConv B t.heap).2 ∧
        (A.assignConv B t.heap).2
          = applyCalls (addCalls B.get ++ removeCalls A.get) t.heap) ∧
      ((Traced.assignPtr A p t).2.heap = (A.assignPtr p t.heap).2 ∧
        (A.assignPtr p t.heap).2 = applyCalls (addCalls p ++ removeCalls A.get) t.heap) ∧
      ((Traced.resetPtr A p t).2.heap = (A.resetPtr p t.heap).2 ∧
        (A.resetPtr p t.heap).2 = applyCalls (addCalls p ++ removeCalls A.get) t.heap)) ∧
    (∀ a : Nat, A.get = some a → (t.heap a).RefCount = 1 →
      ((Traced.assign A A t).2.log
          = t.log ++ [{ call := Call.AddReference, addr := a },
                      { call := Call.RemoveReference, addr := a }] ∧
        (B.get = some a →
          (Traced.assign A B t).2.log
            = t.log ++ [{ call := Call.AddReference, addr := a },
                        { call := Call.RemoveReference, addr := a }] ∧
          (Traced.assignConv A B t).2.log
            = t.log ++ [{ call := Call.AddReference, addr := a },
                        { call := Call.RemoveReference, addr := a }]) ∧
        (Traced.assignPtr A A.get t).2.log
          = t.log ++ [{ call := Call.AddReference, addr := a },
                      { call := Call.RemoveReference, addr := a }]) ∧
      ((applyCalls [{ call := Call.AddReference, addr := a }] t.heap a).RefCount = 2 ∧
        (applyCalls [{ call := Call.AddReference, addr := a }] t.heap a).deleted
          = (t.heap a).deleted) ∧
      ((applyCalls [{ call := Call.AddReference, addr := a },
          { call := Call.RemoveReference, addr := a }] t.heap a).RefCount = 1 ∧
        (applyCalls [{ call := Call.AddReference, addr := a },
          { call := Call.RemoveReference, addr := a }] t.heap a).deleted
          = (t.heap a).deleted)) := by
  refine ⟨⟨?_, ?_, ?_, ?_⟩, ⟨⟨?_, ?_⟩, ⟨?_, ?_⟩, ⟨?_, ?_⟩, ⟨?_, ?_⟩⟩, ?_⟩
  · rw [traced_assign_eq]; rfl
  · rw [traced_assignConv_eq]; rfl
  · rw [traced_assignPtr_eq]; rfl
  · rw [traced_resetPtr_eq]; rfl
  · rw [traced_assign_eq, assign_eq]
  · rw [assign_eq]; exact assign_heap_eq_applyCalls _ _ _
  · rw [traced_assignConv_eq, assignConv_eq]
  · rw [assignConv_eq]; exact assign_heap_eq_applyCalls _ _ _
  · rw [traced_assignPtr_eq, assignPtr_eq]
  · rw [assignPtr_eq]; exact assign_heap_eq_applyCalls _ _ _
  · rw [traced_resetPtr_eq, resetPtr_eq]
  · rw [resetPtr_eq]; exact assign_heap_eq_applyCalls _ _ _
  · intro a hA hc
    have hpa : A.px = some a := hA
    have hc1 : (t.heap a).safeRefCount = 1 := hc
    refine ⟨⟨?_, ?_, ?_⟩, ⟨?_, ?_⟩, ⟨?_, ?_⟩⟩
    · rw [traced_assign_eq, hpa, addCalls_some, removeCalls_some, List.append_assoc]
      rfl
    · intro hB
      have hpb : B.px = some a := hB
      rw [traced_assign_eq, traced_assignConv_eq, hpa, hpb, addCalls_some, removeCalls_some,
        List.append_assoc]
      exact ⟨rfl, rfl⟩
    · rw [traced_assignPtr_eq, IntrusivePtr_t.get, hpa, addCalls_some, removeCalls_some,
        List.append_assoc]
      rfl
    · rw [← addCalls_some, applyCalls_addCalls, RefCount_eq, add_ref_count, if_pos rfl, hc1]
      decide
    · rw [← addCalls_some, applyCalls_addCalls, add_ref_deleted]
    · have e : [({ call := Call.AddReference, addr := a } : CallOn),
          { call := Call.RemoveReference, addr := a }]
          = addCalls (some a) ++ removeCalls (some a) := rfl
      rw [e, ← assign_heap_eq_applyCalls, RefCount_eq, release_count, if_pos rfl,
        add_ref_count, if_pos rfl, hc1]
      decide
    · have e : [({ call := Call.AddReference, addr := a } : CallOn),
          { call := Call.RemoveReference, addr := a }]
          = addCalls (some a) ++ removeCalls (some a) := rfl
      rw [e, ← assign_heap_eq_applyCalls, release_deleted, add_ref_deleted, add_ref_count,
        if_pos rfl, hc1, if_neg]
      intro ⟨_, h2⟩
      exact absurd h2 (by decide)

/-- C16 at a handle that is the sole owner of the object at address 0. -/
theorem C16_claim_before_release_witness :
    (Traced.assign { px := some 0 } { px := some 0 }
        { heap := fun _ => { safeRefCount := 1, deleted := 0 }, log := [] }).2.log
      = [] ++ [{ call := Call.AddReference, addr := 0 },
               { call := Call.RemoveReference, addr := 0 }] ∧
    (applyCalls [{ call := Call.AddReference, addr := 0 }]
        (fun _ => { safeRefCount := 1, deleted := 0 }) 0).RefCount = 2 ∧
    (applyCalls [{ call := Call.AddReference, addr := 0 },
        { call := Call.RemoveReference, addr := 0 }]
        (fun _ => { safeRefCount := 1, deleted := 0 }) 0).deleted = 0 := by
  have h := (C16_claim_before_release { px := some 0 } { px := some 0 } (some 0)
    { heap := fun _ => { safeRefCount := 1, deleted := 0 }, log := [] }).2.2 0 rfl rfl
  exact ⟨h.1.1, h.2.1.1, h.2.2.2⟩

/-! ## Empty handles -/

/-- C18: a handle is empty exactly when it is the default-constructed handle; and
default construction, construction from a null raw pointer with either value of
`add_ref`, copy-construction (plain or converting) from an empty handle,
destruction of an empty handle, `reset()` on an empty handle and assignment (plain
or converting) of an empty handle to an empty handle add no call to the log and
leave the whole heap, hence every count, unchanged; the handle they produce has
`get()` null and `is_set()` false. -/
theorem C18_empty_handles (t : Traced) (add_ref : Bool) :
    (∀ e : IntrusivePtr_t, e.is_set = false ↔ e = IntrusivePtr_t.empty) ∧
    (IntrusivePtr_t.empty.get = none ∧ IntrusivePtr_t.empty.is_set = false) ∧
    (Traced.ofPtr none add_ref t = (IntrusivePtr_t.empty, t) ∧
      IntrusivePtr_t.ofPtr none add_ref t.heap = (IntrusivePtr_t.empty, t.heap)) ∧
    (Traced.copy IntrusivePtr_t.empty t = (IntrusivePtr_t.empty, t) ∧
      IntrusivePtr_t.copy IntrusivePtr_t.empty t.heap = (IntrusivePtr_t.empty, t.heap)) ∧
    (Traced.copyConv IntrusivePtr_t.empty t = (IntrusivePtr_t.empty, t) ∧
      IntrusivePtr_t.copyConv IntrusivePtr_t.empty t.heap
        = (IntrusivePtr_t.empty, t.heap)) ∧
    (Traced.destroy IntrusivePtr_t.empty t = t ∧
      IntrusivePtr_t.empty.destroy t.heap = t.heap) ∧
    (Traced.reset IntrusivePtr_t.empty t = (IntrusivePtr_t.empty, t) ∧
      IntrusivePtr_t.empty.reset t.heap = (IntrusivePtr_t.empty, t.heap)) ∧
    (Traced.assign IntrusivePtr_t.empty IntrusivePtr_t.empty t = (IntrusivePtr_t.empty, t) ∧
      IntrusivePtr_t.empty.assign IntrusivePtr_t.empty t.heap
        = (IntrusivePtr_t.empty, t.heap)) ∧
    (Traced.assignConv IntrusivePtr_t.empty IntrusivePtr_t.empty t
        = (IntrusivePtr_t.empty, t) ∧
      IntrusivePtr_t.empty.assignConv IntrusivePtr_t.empty t.heap
        = (IntrusivePtr_t.empty, t.heap)) := by
  refine ⟨?_, ⟨rfl, rfl⟩, ⟨?_, ?_⟩, ⟨rfl, rfl⟩, ⟨rfl, rfl⟩, ⟨rfl, rfl⟩, ⟨rfl, rfl⟩,
    ⟨rfl, rfl⟩, ⟨rfl, rfl⟩⟩
  · intro e
    cases e with
    | mk p => cases p <;> simp [IntrusivePtr_t.is_set, IntrusivePtr_t.empty]
  · cases add_ref <;> rfl
  · cases add_ref <;> rfl

/-! ## The targets of the handles after `swap` and after an assignment -/

theorem handle_set_self (h : Heap) (l : List (Option IntrusivePtr_t)) (i : Nat)
    (v : Option IntrusivePtr_t) (hi : i < l.length) :
    Sys.handle { heap := h, handles := l.set i v } i = v := by
  unfold Sys.handle
  simp only [List.getElem?_set_self hi]
  cases v <;> rfl

theorem handle_set_ne (h k : Heap) (l : List (Option IntrusivePtr_t)) (i n : Nat)
    (v : Option IntrusivePtr_t) (hne : i ≠ n) :
    Sys.handle { heap := h, handles := l.set i v } n
      = Sys.handle { heap := k, handles := l } n := by
  unfold Sys.handle
  simp only [List.getElem?_set_ne hne]

theorem handle_heap_irrelevant (s : Sys) (h : Heap) (n : Nat) :
    Sys.handle { heap := h, handles := s.handles } n = s.handle n := rfl

/-- C12, the member `swap`: called on handle `i` with handle `j` as argument, it
gives handle `i` the former target of handle `j` and handle `j` the former target
of handle `i`; `swap` receives no heap, so it makes no counting call, and the heap,
hence every count and every `deleted`, is unchanged, as is every other handle.
This is the member that the free function `swap` names in its body. -/
theorem C12_member_swap (s : Sys) (i j : Nat) (a b : IntrusivePtr_t)
    (hi : s.handle i = some a) (hj : s.handle j = some b) :
    ((a.swap b).1.get = b.get ∧ (a.swap b).2.get = a.get) ∧
    ∃ t, s.step (Op.swap i j) = some t ∧ t.heap = s.heap ∧
      t.handle i = some b ∧ t.handle j = some a ∧
      (∀ k, k ≠ i → k ≠ j → t.handles[k]? = s.handles[k]?) := by
  refine ⟨⟨rfl, rfl⟩,
    { heap := s.heap,
      handles := (s.handles.set i (some (a.swap b).1)).set j (some (a.swap b).2) },
    by simp only [Sys.step, hi, hj], rfl, ?_, ?_, ?_⟩
  · by_cases hij : i = j
    · subst hij
      have hab : a = b := by
        rw [hi] at hj
        exact Option.some.inj hj
      rw [handle_set_self _ _ _ _ (by rw [List.length_set]; exact lt_length_of_handle s i a hi),
        hab]
      rfl
    · rw [handle_set_ne s.heap s.heap _ j i _ (fun e => hij e.symm),
        handle_set_self _ _ _ _ (lt_length_of_handle s i a hi)]
      rfl
  · rw [handle_set_self _ _ _ _
      (by rw [List.length_set]; exact lt_length_of_handle s j b hj)]
    rfl
  · intro k hki hkj
    show ((s.handles.set i _).set j _)[k]? = _
    rw [List.getElem?_set_ne (fun e => hkj e.symm), List.getElem?_set_ne (fun e => hki e.symm)]

/-- C12, the member `swap`, at two handles on the objects at addresses 1 and 2. -/
theorem C12_member_swap_witness :
    ((IntrusivePtr_t.swap { px := some 1 } { px := some 2 }).1.get
        = IntrusivePtr_t.get { px := some 2 } ∧
      (IntrusivePtr_t.swap { px := some 1 } { px := some 2 }).2.get
        = IntrusivePtr_t.get { px := some 1 }) ∧
    ∃ t, Sys.step { heap := fun _ => { safeRefCount := 1, deleted := 0 },
                    handles := [some { px := some 1 }, some { px := some 2 }] }
          (Op.swap 0 1) = some t ∧
      t.heap = (fun _ => { safeRefCount := 1, deleted := 0 }) ∧
      t.handle 0 = some { px := some 2 } ∧ t.handle 1 = some { px := some 1 } ∧
      (∀ k, k ≠ 0 → k ≠ 1 →
        t.handles[k]? = [some ({ px := some 1 } : IntrusivePtr_t), some { px := some 2 }][k]?) :=
  C12_member_swap { heap := fun _ => { safeRefCount := 1, deleted := 0 },
                    handles := [some { px := some 1 }, some { px := some 2 }] }
    0 1 { px := some 1 } { px := some 2 } rfl rfl

theorem put_handle_self (s : Sys) (i : Nat) (A : IntrusivePtr_t) (r : IntrusivePtr_t × Heap)
    (hi : s.handle i = some A) : (s.put i r).handle i = some r.1 :=
  handle_set_self _ _ _ _ (lt_length_of_handle s i A hi)

theorem put_handles_ne (s : Sys) (i k : Nat) (r : IntrusivePtr_t × Heap) (hne : k ≠ i) :
    (s.put i r).handles[k]? = s.handles[k]? := by
  show (s.handles.set i _)[k]? = _
  rw [List.getElem?_set_ne (fun e => hne e.symm)]

theorem put_handle_other (s : Sys) (i j : Nat) (A B : IntrusivePtr_t)
    (r : IntrusivePtr_t × Heap) (hi : s.handle i = some A) (hj : s.handle j = some B)
    (hr : r.1.px = B.px) : (s.put i r).handle j = some B := by
  by_cases hij : i = j
  · subst hij
    rw [put_handle_self s i A r hi]
    cases B with
    | mk q =>
      cases hq : r.1 with
      | mk q1 =>
        rw [hq] at hr
        simp only at hr
        rw [hr]
  · have := handle_set_ne r.2 s.heap s.handles i j (some r.1) hij
    rw [handle_heap_irrelevant] at this
    rw [← hj]
    exact this

/-- C19: for all live handles `A` (number `i`) and `B` (number `j`, possibly `A`
itself) and every raw pointer `p`, after `A = B`, by the copy or the converting
assignment, `A.get()` equals `B.get()` and `B` still has its target; after `A = p`
and after `A.reset(p)`, `A.get()` equals `p`; and in each case every entry of the
handle list other than `A` is unchanged. -/
theorem C19_assignment_targets (s : Sys) (i j : Nat) (A B : IntrusivePtr_t) (p : Ptr)
    (hi : s.handle i = some A) (hj : s.handle j = some B) :
    ((A.assign B s.heap).1.get = B.get ∧ (A.assignConv B s.heap).1.get = B.get ∧
      (A.assignPtr p s.heap).1.get = p ∧ (A.resetPtr p s.heap).1.get = p) ∧
    (∀ op, op = Op.assign i j ∨ op = Op.assignConv i j →
      ∃ t, s.step op = some t ∧ (t.handle i).map IntrusivePtr_t.get = some B.get ∧
        t.handle j = some B ∧ (∀ k, k ≠ i → t.handles[k]? = s.handles[k]?)) ∧
    (∀ op, op = Op.assignPtr i p ∨ op = Op.resetPtr i p →
      ∃ t, s.step op = some t ∧ (t.handle i).map IntrusivePtr_t.get = some p ∧
        (∀ k, k ≠ i → t.handles[k]? = s.handles[k]?)) := by
  refine ⟨⟨?_, ?_, ?_, ?_⟩, ?_, ?_⟩
  · exact congrArg (fun r => r.1.get) (assign_eq A B s.heap)
  · exact congrArg (fun r => r.1.get) (assignConv_eq A B s.heap)
  · exact congrArg (fun r => r.1.get) (assignPtr_eq A p s.heap)
  · exact congrArg (fun r => r.1.get) (resetPtr_eq A p s.heap)
  · intro op hop
    rcases hop with hop | hop <;> subst hop
    · refine ⟨s.put i (A.assign B s.heap), by simp only [Sys.step, hi, hj], ?_, ?_,
        fun k hk => put_handles_ne s i k _ hk⟩
      · rw [put_handle_self s i A _ hi, assign_eq]; rfl
      · exact put_handle_other s i j A B _ hi hj (by rw [assign_eq])
    · refine ⟨s.put i (A.assignConv B s.heap), by simp only [Sys.step, hi, hj], ?_, ?_,
        fun k hk => put_handles_ne s i k _ hk⟩
      · rw [put_handle_self s i A _ hi, assignConv_eq]; rfl
      · exact put_handle_other s i j A B _ hi hj (by rw [assignConv_eq])
  · intro op hop
    rcases hop with hop | hop <;> subst hop
    · refine ⟨s.put i (A.assignPtr p s.heap), by simp only [Sys.step, hi], ?_,
        fun k hk => put_handles_ne s i k _ hk⟩
      rw [put_handle_self s i A _ hi, assignPtr_eq]; rfl
    · refine ⟨s.put i (A.resetPtr p s.heap), by simp only [Sys.step, hi], ?_,
        fun k hk => put_handles_ne s i k _ hk⟩
      rw [put_handle_self s i A _ hi, resetPtr_eq]; rfl

/-! ## `reset` and assignment -/

theorem obj_ext (o1 o2 : SafeRefCount_t) (h1 : o1.safeRefCount = o2.safeRefCount)
    (h2 : o1.deleted = o2.deleted) : o1 = o2 := by
  cases o1
  cases o2
  simp only at h1 h2
  rw [h1, h2]

theorem spec_assign_empty_handle_eq (self : IntrusivePtr_t) (h : Heap) :
    spec_assign_empty_handle self h = ({ px := none }, IntrusivePtr_t_release self.px h) := by
  simp [spec_assign_empty_handle, assign_eq, destroy_eq, IntrusivePtr_t.empty,
    IntrusivePtr_t_add_ref, IntrusivePtr_t_release]

theorem spec_assign_new_handle_eq (self : IntrusivePtr_t) (p : Ptr) (h : Heap) :
    spec_assign_new_handle self p h
      = ({ px := p },
         IntrusivePtr_t_release p (IntrusivePtr_t_release self.px
           (IntrusivePtr_t_add_ref p (IntrusivePtr_t_add_ref p h)))) := by
  simp [spec_assign_new_handle, ofPtr_true, assign_eq, destroy_eq]

/-- Claiming `p` twice, releasing `old` and then releasing `p` leaves the heap that
claiming `p` once and releasing `old` leaves, unless the count of the target of `p`
is -1. -/
theorem release_after_double_claim (old p : Ptr) (h : Heap)
    (hp : ∀ a, p = some a → INT_MIN ≤ (h a).safeRefCount ∧ (h a).safeRefCount ≤ INT_MAX ∧
      (h a).safeRefCount ≠ -1) :
    IntrusivePtr_t_release p (IntrusivePtr_t_release old
        (IntrusivePtr_t_add_ref p (IntrusivePtr_t_add_ref p h)))
      = IntrusivePtr_t_release old (IntrusivePtr_t_add_ref p h) := by
  cases p with
  | none => rfl
  | some a =>
    obtain ⟨h1, h2, h3⟩ := hp a rfl
    unfold INT_MIN at h1
    unfold INT_MAX at h2
    funext x
    apply obj_ext
    · simp only [release_count, add_ref_count]
      by_cases hx : some a = some x <;> by_cases ho : old = some x <;>
        simp only [hx, ho, if_true, if_false]
      all_goals
        have hax : a = x := Option.some.inj hx
        subst hax
        unfold wrapInt
        omega
    · simp only [release_deleted, release_count, add_ref_deleted, add_ref_count]
      by_cases hx : some a = some x
      · have hax : a = x := Option.some.inj hx
        subst hax
        by_cases ho : old = some a
        · simp only [ho, if_true, true_and]
          have e2 : ¬ (wrapInt (wrapInt ((h a).safeRefCount + 1) + 1) = 1) := by
            unfold wrapInt; omega
          have e3 : wrapInt (wrapInt (wrapInt ((h a).safeRefCount + 1) + 1) - 1)
              = wrapInt ((h a).safeRefCount + 1) := by
            unfold wrapInt; omega
          simp only [e2, e3, if_false]
        · have e2 : ¬ (wrapInt (wrapInt ((h a).safeRefCount + 1) + 1) = 1) := by
            unfold wrapInt; omega
          simp only [ho, if_true, if_false, true_and, false_and, e2]
      · simp only [hx, if_false, false_and]

/-- C13, as stated, fails twice: when the target of `p` has count -1,
`h = IntrusivePtr_t(p, true)` ends with `delete this` run on that object (the
temporary and the copy made by `operator=` raise the count to 1 and the destructor
of the temporary brings it to 0), while `h.reset(p)` leaves it alive with count 0;
and `reset()` on a handle whose target has count -2147483648 leaves that count at
2147483647, not one less. -/
theorem C13_counterexample :
    (((IntrusivePtr_t.resetPtr IntrusivePtr_t.empty (some 0)
          (fun _ => { safeRefCount := -1, deleted := 0 })).2 0)
        = { safeRefCount := 0, deleted := 0 } ∧
      ((spec_assign_new_handle IntrusivePtr_t.empty (some 0)
          (fun _ => { safeRefCount := -1, deleted := 0 })).2 0)
        = { safeRefCount := 0, deleted := 1 }) ∧
    (((IntrusivePtr_t.reset { px := some 0 }
          (fun _ => { safeRefCount := -2147483648, deleted := 0 })).2 0).RefCount
        = 2147483647 ∧
      ((IntrusivePtr_t.reset { px := some 0 }
          (fun _ => { safeRefCount := -2147483648, deleted := 0 })).2 0).RefCount
        ≠ -2147483648 - 1) := by
  refine ⟨⟨?_, ?_⟩, ?_, ?_⟩ <;> decide

/-- C13 (amended): for every handle `h`, raw pointer `p` and heap, `h.reset()`
produces the same handle and the same heap as assigning an empty handle to `h`;
`h.reset(p)` produces the same handle and heap as `h = p`, and as assigning to `h` a
handle newly constructed from `p` with `add_ref = true` provided the count of the
target of `p` is a value of `int` other than -1; after `h.reset()`, `h.is_set()` is
false, and the former target of `h`, if its count is above `INT_MIN`, has lost
exactly one count while every other object is unchanged. -/
theorem C13_reset_is_assignment (h : IntrusivePtr_t) (p : Ptr) (heap : Heap) :
    h.reset heap = spec_assign_empty_handle h heap ∧
    h.resetPtr p heap = h.assignPtr p heap ∧
    ((∀ a, p = some a → INT_MIN ≤ (heap a).RefCount ∧ (heap a).RefCount ≤ INT_MAX ∧
        (heap a).RefCount ≠ -1) →
      h.resetPtr p heap = spec_assign_new_handle h p heap) ∧
    ((h.reset heap).1.is_set = false ∧ (h.reset heap).1.get = none) ∧
    (∀ a, h.get = some a → INT_MIN < (heap a).RefCount → (heap a).RefCount ≤ INT_MAX →
      ((h.reset heap).2 a).RefCount = (heap a).RefCount - 1 ∧
      ∀ x, x ≠ a → (h.reset heap).2 x = heap x) := by
  refine ⟨?_, rfl, ?_, ?_, ?_⟩
  · rw [reset_eq, spec_assign_empty_handle_eq]
  · intro hp
    rw [resetPtr_eq, spec_assign_new_handle_eq, release_after_double_claim h.px p heap hp]
  · rw [reset_eq]
    exact ⟨rfl, rfl⟩
  · intro a ha hmin hmax
    have hpx : h.px = some a := ha
    rw [RefCount_eq] at hmin hmax
    unfold INT_MIN at hmin
    unfold INT_MAX at hmax
    rw [reset_eq]
    refine ⟨?_, ?_⟩
    · rw [RefCount_eq, RefCount_eq]
      show (IntrusivePtr_t_release h.px heap a).safeRefCount = _
      rw [release_count, if_pos hpx]
      unfold wrapInt; omega
    · intro x hx
      show IntrusivePtr_t_release h.px heap x = heap x
      rw [hpx]
      exact Function.update_noteq hx _ _

/-- C13 (amended) at a handle on the object at address 0 reset to the object at
address 1, both with count 1. -/
theorem C13_reset_is_assignment_witness :
    IntrusivePtr_t.resetPtr { px := some 0 } (some 1)
        (fun _ => { safeRefCount := 1, deleted := 0 })
      = spec_assign_new_handle { px := some 0 } (some 1)
        (fun _ => { safeRefCount := 1, deleted := 0 }) ∧
    ((IntrusivePtr_t.reset { px := some 0 }
        (fun _ => { safeRefCount := 1, deleted := 0 })).2 0).RefCount = 1 - 1 := by
  have h := C13_reset_is_assignment { px := some 0 } (some 1)
    (fun _ => { safeRefCount := 1, deleted := 0 })
  exact ⟨h.2.2.1 (fun a _ => ⟨by decide, by decide, by decide⟩),
    (h.2.2.2.2 0 rfl (by decide) (by decide)).1⟩

/-! ## Two threads releasing the last two claims -/

theorem count_true_add_count_false (l : List Bool) :
    l.count true + l.count false = l.length := by
  induction l with
  | nil => rfl
  | cons b bs ih =>
    cases b <;> simp only [List.count_cons, List.length_cons, beq_self_eq_true, if_true,
      Bool.true_beq, Bool.false_beq, Bool.not_true, Bool.not_false, Bool.false_eq_true,
      if_false, add_zero, beq_iff_eq] <;> omega

/-- A thread that runs its two steps with no step of another thread in between
executes `RemoveReference` as the sequential code does. -/
theorem releasing_steps_eq_RemoveReference (o : SafeRefCount_t) :
    ∃ o1 t1 o2 t2, Releasing.start.step o = some (o1, t1) ∧ t1.step o1 = some (o2, t2) ∧
      t2.step o2 = none ∧ o2 = o.RemoveReference ∧ t2.old = some o.safeRefCount := by
  refine ⟨{ o with safeRefCount := wrapInt (o.safeRefCount - 1) },
    { old := some o.safeRefCount, finished := false, deletes := false },
    o.RemoveReference,
    { old := some o.safeRefCount, finished := true, deletes := decide (o.safeRefCount = 1) },
    rfl, ?_, rfl, rfl, rfl⟩
  by_cases h : o.safeRefCount = 1
  · simp [Releasing.step, SafeRefCount_t.RemoveReference, h]
  · simp [Releasing.step, SafeRefCount_t.RemoveReference, h]

/-- C15: two threads each run `RemoveReference` on one object whose count is 2.
For every schedule that lets each thread run its two steps (the atomic `fetch_sub`,
then the `if` on the value it returned), in any interleaving, the run ends in one
of two states: the first thread observed 2 and did nothing further while the second
observed 1 and ran `delete this`, or the other way round; in both the count is 0
and `delete this` has run exactly once. -/
theorem C15_concurrent_final_release (sched : List Bool)
    (h1 : sched.count true = 2) (h2 : sched.count false = 2) :
    TwoThreads.run sched
        { obj := { safeRefCount := 2, deleted := 0 },
          t1 := Releasing.start, t2 := Releasing.start }
      = some { obj := { safeRefCount := 0, deleted := 1 },
               t1 := { old := some 2, finished := true, deletes := false },
               t2 := { old := some 1, finished := true, deletes := true } } ∨
    TwoThreads.run sched
        { obj := { safeRefCount := 2, deleted := 0 },
          t1 := Releasing.start, t2 := Releasing.start }
      = some { obj := { safeRefCount := 0, deleted := 1 },
               t1 := { old := some 1, finished := true, deletes := true },
               t2 := { old := some 2, finished := true, deletes := false } } := by
  have hlen : sched.length = 4 := by
    rw [← count_true_add_count_false, h1, h2]
  match sched, hlen, h1, h2 with
  | [a, b, c, d], _, h1, h2 =>
    revert h1 h2
    cases a <;> cases b <;> cases c <;> cases d <;> decide

/-- C15 at the schedule in which the second thread runs `fetch_sub` between the two
steps of the first. -/
theorem C15_concurrent_final_release_witness :
    TwoThreads.run [true, false, true, false]
        { obj := { safeRefCount := 2, deleted := 0 },
          t1 := Releasing.start, t2 := Releasing.start }
      = some { obj := { safeRefCount := 0, deleted := 1 },
               t1 := { old := some 2, finished := true, deletes := false },
               t2 := { old := some 1, finished := true, deletes := true } } ∨
    TwoThreads.run [true, false, true, false]
        { obj := { safeRefCount := 2, deleted := 0 },
          t1 := Releasing.start, t2 := Releasing.start }
      = some { obj := { safeRefCount := 0, deleted := 1 },
               t1 := { old := some 1, finished := true, deletes := true },
               t2 := { old := some 2, finished := true, deletes := false } } :=
  C15_concurrent_final_release [true, false, true, false] (by decide) (by decide)

/-- C19 at two handles on the objects at addresses 1 and 2. -/
theorem C19_assignment_targets_witness :
    ∃ t, Sys.step { heap := fun _ => { safeRefCount := 1, deleted := 0 },
                    handles := [some { px := some 1 }, some { px := some 2 }] }
          (Op.assign 0 1) = some t ∧
      (t.handle 0).map IntrusivePtr_t.get = some (IntrusivePtr_t.get { px := some 2 }) ∧
      t.handle 1 = some { px := some 2 } ∧
      (∀ k, k ≠ 0 →
        t.handles[k]? = [some ({ px := some 1 } : IntrusivePtr_t), some { px := some 2 }][k]?) :=
  (C19_assignment_targets { heap := fun _ => { safeRefCount := 1, deleted := 0 },
                            handles := [some { px := some 1 }, some { px := some 2 }] }
    0 1 { px := some 1 } { px := some 2 } none rfl rfl).2.1 (Op.assign 0 1) (Or.inl rfl)

/-! ## The counting invariant on programs that make no call on a deleted object -/

theorem init_inv : Sys.init.Inv := by
  intro a
  show (0 : Int) = wrapInt 0
  decide

/-- Every operation leaves the heap that first claiming some `p` and then releasing
some `q` leaves, and these are the calls it makes. -/
theorem step_shape (s t : Sys) (op : Op) (hstep : s.step op = some t) :
    ∃ p q, t.heap = IntrusivePtr_t_release q (IntrusivePtr_t_add_ref p s.heap) ∧
      s.calls op = addCalls p ++ removeCalls q := by
  cases op with
  | construct p =>
    simp only [Sys.step, Option.some.injEq] at hstep
    subst hstep
    refine ⟨p, none, ?_, ?_⟩
    · show (IntrusivePtr_t.ofPtr p true s.heap).2 = _
      rw [ofPtr_true]; rfl
    · simp only [Sys.calls, traced_ofPtr_true, List.nil_append, removeCalls, List.append_nil]
  | copy j =>
    simp only [Sys.step] at hstep
    cases hj : s.handle j with
    | none => simp [hj] at hstep
    | some rhs =>
      simp only [hj, Option.some.injEq] at hstep
      subst hstep
      refine ⟨rhs.px, none, ?_, ?_⟩
      · show (IntrusivePtr_t.copy rhs s.heap).2 = _
        rw [copy_eq]; rfl
      · simp only [Sys.calls, hj, traced_copy_eq, List.nil_append, removeCalls,
          List.append_nil]
  | copyConv j =>
    simp only [Sys.step] at hstep
    cases hj : s.handle j with
    | none => simp [hj] at hstep
    | some rhs =>
      simp only [hj, Option.some.injEq] at hstep
      subst hstep
      refine ⟨rhs.px, none, ?_, ?_⟩
      · show (IntrusivePtr_t.copyConv rhs s.heap).2 = _
        rw [copyConv_eq]; rfl
      · simp only [Sys.calls, hj, traced_copyConv_eq, List.nil_append, removeCalls,
          List.append_nil]
  | static_pointer_cast j =>
    simp only [Sys.step] at hstep
    cases hj : s.handle j with
    | none => simp [hj] at hstep
    | some rhs =>
      simp only [hj, Option.some.injEq] at hstep
      subst hstep
      refine ⟨rhs.px, none, ?_, ?_⟩
      · show (static_pointer_cast rhs s.heap).2 = _
        rw [static_pointer_cast_eq]; rfl
      · simp only [Sys.calls, hj, traced_ofPtr_true, IntrusivePtr_t.get, List.nil_append,
          removeCalls, List.append_nil]
  | const_pointer_cast j =>
    simp only [Sys.step] at hstep
    cases hj : s.handle j with
    | none => simp [hj] at hstep
    | some rhs =>
      simp only [hj, Option.some.injEq] at hstep
      subst hstep
      refine ⟨rhs.px, none, ?_, ?_⟩
      · show (const_pointer_cast rhs s.heap).2 = _
        rw [const_pointer_cast_eq]; rfl
      · simp only [Sys.calls, hj, traced_ofPtr_true, IntrusivePtr_t.get, List.nil_append,
          removeCalls, List.append_nil]
  | assign i j =>
    simp only [Sys.step] at hstep
    cases hi : s.handle i with
    | none => simp [hi] at hstep
    | some self =>
      cases hj : s.handle j with
      | none => simp [hi, hj] at hstep
      | some rhs =>
        simp only [hi, hj, Option.some.injEq] at hstep
        subst hstep
        refine ⟨rhs.px, self.px, ?_, ?_⟩
        · show (self.assign rhs s.heap).2 = _
          rw [assign_eq]
        · simp only [Sys.calls, hi, hj, traced_assign_eq, List.nil_append]
  | assignConv i j =>
    simp only [Sys.step] at hstep
    cases hi : s.handle i with
    | none => simp [hi] at hstep
    | some self =>
      cases hj : s.handle j with
      | none => simp [hi, hj] at hstep
      | some rhs =>
        simp only [hi, hj, Option.some.injEq] at hstep
        subst hstep
        refine ⟨rhs.px, self.px, ?_, ?_⟩
        · show (self.assignConv rhs s.heap).2 = _
          rw [assignConv_eq]
        · simp only [Sys.calls, hi, hj, traced_assignConv_eq, List.nil_append]
  | assignPtr i p =>
    simp only [Sys.step] at hstep
    cases hi : s.handle i with
    | none => simp [hi] at hstep
    | some self =>
      simp only [hi, Option.some.injEq] at hstep
      subst hstep
      refine ⟨p, self.px, ?_, ?_⟩
      · show (self.assignPtr p s.heap).2 = _
        rw [assignPtr_eq]
      · simp only [Sys.calls, hi, traced_assignPtr_eq, List.nil_append]
  | resetPtr i p =>
    simp only [Sys.step] at hstep
    cases hi : s.handle i with
    | none => simp [hi] at hstep
    | some self =>
      simp only [hi, Option.some.injEq] at hstep
      subst hstep
      refine ⟨p, self.px, ?_, ?_⟩
      · show (self.resetPtr p s.heap).2 = _
        rw [resetPtr_eq]
      · simp only [Sys.calls, hi, traced_resetPtr_eq, List.nil_append]
  | reset i =>
    simp only [Sys.step] at hstep
    cases hi : s.handle i with
    | none => simp [hi] at hstep
    | some self =>
      simp only [hi, Option.some.injEq] at hstep
      subst hstep
      refine ⟨none, self.px, ?_, ?_⟩
      · show (self.reset s.heap).2 = _
        rw [reset_eq]; rfl
      · simp only [Sys.calls, hi, traced_reset_eq, List.nil_append, addCalls]
  | destroy i =>
    simp only [Sys.step] at hstep
    cases hi : s.handle i with
    | none => simp [hi] at hstep
    | some self =>
      simp only [hi, Option.some.injEq] at hstep
      subst hstep
      refine ⟨none, self.px, ?_, ?_⟩
      · show self.destroy s.heap = _
        rw [destroy_eq]; rfl
      · simp only [Sys.calls, hi, traced_destroy_eq, List.nil_append, addCalls]
  | swap i j =>
    simp only [Sys.step] at hstep
    cases hi : s.handle i with
    | none => simp [hi] at hstep
    | some self =>
      cases hj : s.handle j with
      | none => simp [hi, hj] at hstep
      | some rhs =>
        simp only [hi, hj, Option.some.injEq] at hstep
        subst hstep
        exact ⟨none, none, rfl, rfl⟩

theorem stepLive_eq (s t : Sys) (op : Op) (h : s.stepLive op = some t) :
    s.step op = some t ∧ ∀ c, c ∈ s.calls op → (s.heap c.addr).deleted = 0 := by
  unfold Sys.stepLive at h
  split at h
  · rename_i hall
    refine ⟨h, ?_⟩
    intro c hc
    have := List.all_eq_true.mp hall c hc
    exact of_decide_eq_true this
  · exact absurd h (by simp)

theorem stepLive_of_live (s : Sys) (op : Op)
    (h : ∀ c, c ∈ s.calls op → (s.heap c.addr).deleted = 0) :
    s.stepLive op = s.step op := by
  unfold Sys.stepLive
  rw [if_pos]
  apply List.all_eq_true.mpr
  intro c hc
  exact decide_eq_true (h c hc)

/-- An operation that makes no call on a deleted object changes `deleted` only on a
live object, from 0 to 1. -/
theorem stepLive_deleted (s t : Sys) (op : Op) (h : s.stepLive op = some t) (a : Nat) :
    (t.heap a).deleted = (s.heap a).deleted ∨
      ((s.heap a).deleted = 0 ∧ (t.heap a).deleted = 1) := by
  obtain ⟨hstep, hlive⟩ := stepLive_eq s t op h
  obtain ⟨p, q, hheap, hcalls⟩ := step_shape s t op hstep
  rw [hheap, release_deleted, add_ref_deleted]
  by_cases hc : q = some a ∧ (IntrusivePtr_t_add_ref p s.heap a).safeRefCount = 1
  · rw [if_pos hc]
    right
    have hmem : ({ call := Call.RemoveReference, addr := a } : CallOn) ∈ s.calls op := by
      rw [hcalls, hc.1, removeCalls_some]
      simp
    have := hlive _ hmem
    exact ⟨this, by rw [this]⟩
  · rw [if_neg hc]
    left
    rfl

theorem run_inv (ops : List Op) (s t : Sys) (hinv : s.Inv)
    (hd : ∀ a, (s.heap a).deleted ≤ 1) (hrun : Sys.run ops s = some t) :
    t.Inv ∧ ∀ a, (t.heap a).deleted ≤ 1 := by
  induction ops generalizing s with
  | nil =>
    simp only [Sys.run, Option.some.injEq] at hrun
    exact hrun ▸ ⟨hinv, hd⟩
  | cons op ops ih =>
    simp only [Sys.run] at hrun
    cases hs : s.stepLive op with
    | none => simp [hs] at hrun
    | some u =>
      rw [hs, Option.some_bind] at hrun
      refine ih u (step_spec s u op hinv (stepLive_eq s u op hs).1).1 ?_ hrun
      intro a
      rcases stepLive_deleted s u op hs a with h1 | ⟨_, h1⟩
      · rw [h1]; exact hd a
      · rw [h1]

theorem reachable_inv (s : Sys) (h : s.Reachable) :
    s.Inv ∧ ∀ a, (s.heap a).deleted ≤ 1 := by
  obtain ⟨ops, hops⟩ := h
  exact run_inv ops Sys.init s init_inv (fun _ => Nat.zero_le 1) hops

theorem stepLive_construct (s : Sys) (p : Ptr)
    (hp : ∀ a, p = some a → (s.heap a).deleted = 0) :
    s.stepLive (Op.construct p) = some (s.push (IntrusivePtr_t.ofPtr p true s.heap)) := by
  rw [stepLive_of_live]
  · rfl
  · intro c hc
    simp only [Sys.calls, traced_ofPtr_true, List.nil_append] at hc
    cases p with
    | none => simp [addCalls] at hc
    | some a =>
      rw [addCalls_some, List.mem_singleton] at hc
      rw [hc]
      exact hp a rfl

/-- Building `n` handles from the raw pointer `p` to a live object makes no call on
a deleted object; it appends `n` handles with target `p` and deletes nothing. -/
theorem run_construct_replicate (p : Ptr) (n : Nat) (s : Sys)
    (hp : ∀ a, p = some a → (s.heap a).deleted = 0) :
    ∃ t, Sys.run (List.replicate n (Op.construct p)) s = some t ∧
      t.handles = s.handles ++ List.replicate n (some { px := p }) ∧
      ∀ a, (t.heap a).deleted = (s.heap a).deleted := by
  induction n generalizing s with
  | zero => exact ⟨s, rfl, by simp, fun _ => rfl⟩
  | succ n ih =>
    have hkeep : ∀ a, ((s.push (IntrusivePtr_t.ofPtr p true s.heap)).heap a).deleted
        = (s.heap a).deleted := by
      intro a
      rw [ofPtr_true]
      exact add_ref_deleted p s.heap a
    obtain ⟨t, h1, h2, h3⟩ := ih (s.push (IntrusivePtr_t.ofPtr p true s.heap))
      (fun a ha => by rw [hkeep a]; exact hp a ha)
    refine ⟨t, ?_, ?_, ?_⟩
    · rw [List.replicate_succ]
      show (s.stepLive (Op.construct p)).bind _ = _
      rw [stepLive_construct s p hp]
      exact h1
    · rw [h2, ofPtr_true, List.replicate_succ]
      simp [Sys.push]
    · intro a
      rw [h3 a, hkeep a]

/-- C4, as stated, fails: after 2147483648 handles have been built from the raw
pointer to the object at address 0, with no call made on a deleted object, that
object is alive and is the target of 2147483648 live handles, but its count has
wrapped to -2147483648; and with 4294967297 such handles the count has wrapped to
1, so destroying one of them deletes the live object while 4294967296 live handles
still have it as target. -/
theorem C4_counterexample :
    (∃ s, Sys.run (List.replicate 2147483648 (Op.construct (some 0))) Sys.init = some s ∧
      s.Reachable ∧ s.claims 0 = 2147483648 ∧ (s.heap 0).deleted = 0 ∧
      (s.heap 0).RefCount = -2147483648) ∧
    (∃ s t, Sys.run (List.replicate 4294967297 (Op.construct (some 0))) Sys.init = some s ∧
      s.stepLive (Op.destroy 0) = some t ∧
      s.claims 0 = 4294967297 ∧ t.claims 0 = 4294967296 ∧
      (s.heap 0).deleted = 0 ∧ (t.heap 0).deleted = 1) := by
  constructor
  · obtain ⟨s, h1, h2, h3⟩ := run_construct_replicate (some 0) 2147483648 Sys.init
      (fun _ _ => rfl)
    have hcl : s.claims 0 = 2147483648 := by
      unfold Sys.claims
      rw [h2]
      show List.countP _ ([] ++ _) = _
      rw [List.nil_append, List.countP_replicate, if_pos (by simp [Sys.pointsTo, IntrusivePtr_t.get])]
    refine ⟨s, h1, ⟨_, h1⟩, hcl, h3 0, ?_⟩
    rw [RefCount_eq, (run_inv _ _ _ init_inv (fun _ => Nat.zero_le 1) h1).1 0, hcl]
    decide
  · obtain ⟨s, h1, h2, h3⟩ := run_construct_replicate (some 0) 4294967297 Sys.init
      (fun _ _ => rfl)
    have hs : s.handles = List.replicate 4294967297 (some { px := some 0 }) := by
      rw [h2]
      exact List.nil_append _
    have hcl : s.claims 0 = 4294967297 := by
      unfold Sys.claims
      rw [hs, List.countP_replicate, if_pos (by simp [Sys.pointsTo, IntrusivePtr_t.get])]
    have hh : s.handle 0 = some { px := some 0 } := by
      unfold Sys.handle
      rw [hs, List.getElem?_replicate_of_lt (by omega)]
    have hinv := (run_inv _ _ _ init_inv (fun _ => Nat.zero_le 1) h1).1
    have hcnt : (s.heap 0).safeRefCount = 1 := by
      rw [hinv 0, hcl]
      decide
    have hd0 : (s.heap 0).deleted = 0 := h3 0
    have hstep : s.step (Op.destroy 0)
        = some { heap := IntrusivePtr_t_release (some 0) s.heap,
                 handles := s.handles.set 0 none } := by
      simp only [Sys.step, hh, destroy_eq]
    have hlive : s.stepLive (Op.destroy 0) = s.step (Op.destroy 0) := by
      apply stepLive_of_live
      intro c hc
      simp only [Sys.calls, hh, traced_destroy_eq, List.nil_append, removeCalls_some,
        List.mem_singleton] at hc
      rw [hc]
      exact hd0
    refine ⟨s, _, h1, hlive.trans hstep, hcl, ?_, hd0, ?_⟩
    · have := countP_set_add (Sys.pointsTo 0) s.handles 0 (some { px := some 0 }) none
        (handles_of_handle s 0 _ hh)
      rw [if_pos (by simp [Sys.pointsTo, IntrusivePtr_t.get]), if_neg (pointsTo_none 0)] at this
      unfold Sys.claims at hcl ⊢
      show List.countP (Sys.pointsTo 0) (s.handles.set 0 none) = 4294967296
      omega
    · show (IntrusivePtr_t_release (some 0) s.heap 0).deleted = 1
      rw [release_deleted, if_pos ⟨rfl, hcnt⟩, hd0]

/-- C4 (amended): in every state reachable from fresh objects by the handle
operations that always claim, none of them making a call on an object that has
already been deleted, no object has been deleted more than once; the count of every
live object that is the target of at most `INT_MAX` live handles equals the number
of those handles; and a further such operation runs `delete this` on such an
object, once, exactly when the number of live handles whose target it is drops
from 1 to 0. -/
theorem C4_claim_invariant (s : Sys) (hreach : s.Reachable) :
    (∀ a, (s.heap a).deleted ≤ 1) ∧
    (∀ a, (s.heap a).deleted = 0 → s.claims a ≤ INT_MAX →
      (s.heap a).RefCount = s.claims a) ∧
    (∀ op t, s.stepLive op = some t →
      (∀ a, (t.heap a).deleted ≤ 1) ∧
      ∀ a, (s.heap a).deleted = 0 → s.claims a ≤ INT_MAX →
        (t.heap a).deleted = if s.claims a = 1 ∧ t.claims a = 0 then 1 else 0) := by
  obtain ⟨hinv, hd⟩ := reachable_inv s hreach
  refine ⟨hd, ?_, ?_⟩
  · intro a _ hle
    rw [RefCount_eq, hinv a]
    apply wrapInt_of_range _ _ hle
    unfold INT_MIN
    omega
  · intro op t hstep
    refine ⟨?_, ?_⟩
    · intro a
      rcases stepLive_deleted s t op hstep a with h1 | ⟨_, h1⟩
      · rw [h1]; exact hd a
      · rw [h1]
    · intro a hlive hle
      have := (step_spec s t op hinv (stepLive_eq s t op hstep).1).2 a hle
      rw [this, hlive]

theorem reachable_construct_fresh (a : Nat) :
    (Sys.init.push (IntrusivePtr_t.ofPtr (some a) true Sys.init.heap)).Reachable := by
  refine ⟨[Op.construct (some a)], ?_⟩
  show (Sys.init.stepLive (Op.construct (some a))).bind _ = _
  rw [stepLive_construct Sys.init (some a) (fun _ _ => rfl)]
  rfl

/-- C4 (amended) at the state reached by building one handle from the raw pointer
to the fresh object at address 7. -/
theorem C4_claim_invariant_witness :
    (Sys.init.push (IntrusivePtr_t.ofPtr (some 7) true Sys.init.heap)).Reachable ∧
    ((Sys.init.push (IntrusivePtr_t.ofPtr (some 7) true Sys.init.heap)).heap 7).deleted ≤ 1 ∧
    ((Sys.init.push (IntrusivePtr_t.ofPtr (some 7) true Sys.init.heap)).heap 7).RefCount
      = (Sys.init.push (IntrusivePtr_t.ofPtr (some 7) true Sys.init.heap)).claims 7 ∧
    (∀ op t, (Sys.init.push (IntrusivePtr_t.ofPtr (some 7) true Sys.init.heap)).stepLive op
        = some t →
      (t.heap 7).deleted
        = if (Sys.init.push (IntrusivePtr_t.ofPtr (some 7) true Sys.init.heap)).claims 7 = 1
              ∧ t.claims 7 = 0
          then 1 else 0) := by
  have h := C4_claim_invariant _ (reachable_construct_fresh 7)
  exact ⟨reachable_construct_fresh 7, h.1 7, h.2.1 7 rfl (by decide),
    fun op t hstep => (h.2.2 op t hstep).2 7 rfl (by decide)⟩

end SmartPointer
